import Mathlib

/-!  Verification of the hex-lattice geometry and symmetry engine of the
hexlight-tool repository (`src/utils/hexMath.js` and the state layer
`src/hooks/useHexGrid.js`).

The source computes with JavaScript numbers; we model them as exact real
(or, polymorphically, linear-ordered-field) arithmetic.  All geometry
functions are embedded polymorphically over a `LinearOrderedField`, with
the source's `Math.sqrt(3)` passed explicitly: theorems quantifying over
arbitrary lattices instantiate `α := ℝ` with `Real.sqrt 3`, while
concrete executions (used to settle scenario claims by `decide`)
instantiate `α := Q3`, the computable field `ℚ[√3]` built below, whose
element `Q3.sqrt3` is an exact square root of 3.  -/

/-  Core `Rat` arithmetic is `@[irreducible]`, which blocks kernel
reduction in `decide`; restore the default reducibility (the kernel
itself ignores reducibility, so this changes nothing about soundness). -/
set_option allowUnsafeReducibility true in
attribute [semireducible] Rat.add Rat.mul Rat.inv Rat.div Rat.sub Rat.neg Rat.blt

theorem sqrt3_mul_self : Real.sqrt 3 * Real.sqrt 3 = 3 :=
  Real.mul_self_sqrt (by norm_num)

theorem sqrt3_nonneg : (0 : ℝ) ≤ Real.sqrt 3 := Real.sqrt_nonneg 3

theorem sqrt3_pos_real : (0 : ℝ) < Real.sqrt 3 := Real.sqrt_pos.mpr (by norm_num)

theorem irrational_sqrt3 : Irrational (Real.sqrt 3) := by
  simpa using (Nat.prime_three).irrational_sqrt

/-- Sign of `a + b√3` when `a ≥ 0 > b`: it is nonnegative iff `3b² ≤ a²`. -/
theorem sign_aux_pos_neg (a b : ℝ) (ha : 0 ≤ a) (hb : b < 0) :
    3 * b ^ 2 ≤ a ^ 2 ↔ 0 ≤ a + b * Real.sqrt 3 := by
  have h1 : 0 < a - b * Real.sqrt 3 := by
    have : 0 < -b * Real.sqrt 3 := mul_pos (neg_pos.mpr hb) sqrt3_pos_real
    nlinarith
  constructor
  · intro h
    nlinarith [sqrt3_mul_self, h1]
  · intro h
    nlinarith [sqrt3_mul_self, mul_nonneg h h1.le]

/-- Sign of `a + b√3` when `a < 0 ≤ b`: it is nonnegative iff `a² ≤ 3b²`. -/
theorem sign_aux_neg_pos (a b : ℝ) (ha : a < 0) (hb : 0 ≤ b) :
    a ^ 2 ≤ 3 * b ^ 2 ↔ 0 ≤ a + b * Real.sqrt 3 := by
  have h1 : 0 < b * Real.sqrt 3 - a := by
    have : 0 ≤ b * Real.sqrt 3 := mul_nonneg hb sqrt3_nonneg
    nlinarith
  constructor
  · intro h
    nlinarith [sqrt3_mul_self, h1]
  · intro h
    nlinarith [sqrt3_mul_self, mul_nonneg h h1.le]

theorem sign_aux_neg_neg (a b : ℝ) (ha : a < 0) (hb : b < 0) :
    a + b * Real.sqrt 3 < 0 := by
  have : 0 < -b * Real.sqrt 3 := mul_pos (neg_pos.mpr hb) sqrt3_pos_real
  nlinarith

/-- The field `ℚ[√3]`: `a + b·√3` with rational components.  Since `√3` is
irrational the representation is unique, so structure equality is value
equality. -/
@[ext]
structure Q3 where
  a : ℚ
  b : ℚ
deriving DecidableEq, Repr

namespace Q3

instance : Zero Q3 := ⟨⟨0, 0⟩⟩

instance : One Q3 := ⟨⟨1, 0⟩⟩

/-- The distinguished square root of 3 in `Q3`. -/
def sqrt3 : Q3 := ⟨0, 1⟩

instance : Add Q3 := ⟨fun x y => ⟨x.a + y.a, x.b + y.b⟩⟩

instance : Neg Q3 := ⟨fun x => ⟨-x.a, -x.b⟩⟩

instance : Mul Q3 := ⟨fun x y => ⟨x.a * y.a + 3 * x.b * y.b, x.a * y.b + x.b * y.a⟩⟩

instance : Inv Q3 := ⟨fun x => ⟨x.a / (x.a ^ 2 - 3 * x.b ^ 2), -x.b / (x.a ^ 2 - 3 * x.b ^ 2)⟩⟩

@[simp] theorem zero_a : (0 : Q3).a = 0 := rfl

@[simp] theorem zero_b : (0 : Q3).b = 0 := rfl

@[simp] theorem one_a : (1 : Q3).a = 1 := rfl

@[simp] theorem one_b : (1 : Q3).b = 0 := rfl

@[simp] theorem add_a (x y : Q3) : (x + y).a = x.a + y.a := rfl

@[simp] theorem add_b (x y : Q3) : (x + y).b = x.b + y.b := rfl

@[simp] theorem neg_a (x : Q3) : (-x).a = -x.a := rfl

@[simp] theorem neg_b (x : Q3) : (-x).b = -x.b := rfl

@[simp] theorem mul_a (x y : Q3) : (x * y).a = x.a * y.a + 3 * x.b * y.b := rfl

@[simp] theorem mul_b (x y : Q3) : (x * y).b = x.a * y.b + x.b * y.a := rfl

@[simp] theorem inv_a (x : Q3) : x⁻¹.a = x.a / (x.a ^ 2 - 3 * x.b ^ 2) := rfl

@[simp] theorem inv_b (x : Q3) : x⁻¹.b = -x.b / (x.a ^ 2 - 3 * x.b ^ 2) := rfl

instance commRing : CommRing Q3 := by
  refine
  { add := (· + ·)
    zero := (0 : Q3)
    neg := Neg.neg
    sub := fun x y => x + -y
    mul := (· * ·)
    one := (1 : Q3)
    nsmul := @nsmulRec Q3 ⟨0⟩ ⟨(· + ·)⟩
    zsmul := @zsmulRec Q3 ⟨0⟩ ⟨(· + ·)⟩ ⟨Neg.neg⟩ (@nsmulRec Q3 ⟨0⟩ ⟨(· + ·)⟩)
    npow := @npowRec Q3 ⟨1⟩ ⟨(· * ·)⟩
    add_assoc := ?_
    zero_add := ?_
    add_zero := ?_
    neg_add_cancel := ?_
    add_comm := ?_
    left_distrib := ?_
    right_distrib := ?_
    zero_mul := ?_
    mul_zero := ?_
    mul_assoc := ?_
    one_mul := ?_
    mul_one := ?_
    mul_comm := ?_ } <;>
  intros <;> ext <;> simp <;> ring

@[simp] theorem sub_a (x y : Q3) : (x - y).a = x.a - y.a := by
  show (x + -y).a = _
  simp
  ring

@[simp] theorem sub_b (x y : Q3) : (x - y).b = x.b - y.b := by
  show (x + -y).b = _
  simp
  ring

/-- Interpretation of `Q3` in `ℝ`. -/
noncomputable def toReal (x : Q3) : ℝ := (x.a : ℝ) + (x.b : ℝ) * Real.sqrt 3

theorem toReal_injective : Function.Injective toReal := by
  intro x y h
  unfold toReal at h
  by_cases hb : x.b = y.b
  · ext
    · have h2 := h
      rw [hb] at h2
      have h3 := add_right_cancel h2
      exact_mod_cast h3
    · exact hb
  · exfalso
    have hbb : ((y.b : ℝ)) - (x.b : ℝ) ≠ 0 := by
      have : (y.b : ℚ) - x.b ≠ 0 := sub_ne_zero.mpr (Ne.symm hb)
      exact_mod_cast this
    have hvi : Real.sqrt 3 = (((x.a - y.a) / (y.b - x.b) : ℚ) : ℝ) := by
      push_cast
      rw [eq_div_iff hbb]
      linarith
    exact irrational_sqrt3 ⟨(x.a - y.a) / (y.b - x.b), hvi.symm⟩

theorem toReal_add (x y : Q3) : toReal (x + y) = toReal x + toReal y := by
  unfold toReal
  simp only [add_a, add_b]
  push_cast
  ring

theorem toReal_mul (x y : Q3) : toReal (x * y) = toReal x * toReal y := by
  unfold toReal
  simp only [mul_a, mul_b]
  push_cast
  linear_combination (-(x.b : ℝ) * (y.b : ℝ)) * sqrt3_mul_self

theorem toReal_neg (x : Q3) : toReal (-x) = -toReal x := by
  unfold toReal
  simp only [neg_a, neg_b]
  push_cast
  ring

theorem toReal_sub (x y : Q3) : toReal (x - y) = toReal x - toReal y := by
  unfold toReal
  simp only [sub_a, sub_b]
  push_cast
  ring

theorem toReal_zero : toReal 0 = 0 := by
  unfold toReal
  simp

theorem toReal_one : toReal 1 = 1 := by
  unfold toReal
  simp

/-- The discriminant `a² - 3b²` vanishes only at zero (irrationality of √3). -/
theorem disc_ne_zero (x : Q3) (hx : x ≠ 0) : x.a ^ 2 - 3 * x.b ^ 2 ≠ 0 := by
  intro h
  by_cases hb : x.b = 0
  · have ha2 : x.a ^ 2 = 0 := by
      rw [hb] at h
      nlinarith [h]
    have ha : x.a = 0 := by
      exact pow_eq_zero_iff (by norm_num) |>.mp ha2
    exact hx (by ext <;> simp [ha, hb])
  · have hq : ((x.a / x.b : ℚ)) ^ 2 = 3 := by
      field_simp
      nlinarith [h]
    have hqr : ((x.a / x.b : ℚ) : ℝ) ^ 2 = 3 := by exact_mod_cast hq
    have habs : Real.sqrt 3 = ((|x.a / x.b| : ℚ) : ℝ) := by
      rw [show ((3 : ℝ)) = ((x.a / x.b : ℚ) : ℝ) ^ 2 from hqr.symm, Real.sqrt_sq_eq_abs]
      push_cast
      ring
    exact irrational_sqrt3 ⟨|x.a / x.b|, habs.symm⟩

theorem mul_inv_cancel_q3 (x : Q3) (hx : x ≠ 0) : x * x⁻¹ = 1 := by
  have hd := disc_ne_zero x hx
  ext
  · simp only [mul_a, inv_a, inv_b, one_a]
    field_simp
    ring
  · simp only [mul_b, inv_a, inv_b, one_b]
    field_simp
    ring

instance field : Field Q3 :=
  { Q3.commRing with
    inv := Inv.inv
    exists_pair_ne := ⟨0, 1, by intro h; simpa using congrArg Q3.a h⟩
    mul_inv_cancel := mul_inv_cancel_q3
    inv_zero := by ext <;> simp
    nnqsmul := _
    qsmul := _ }

/-- Computable sign test: `nnegb x = true` iff `0 ≤ a + b√3`. -/
def nnegb (x : Q3) : Bool :=
  if 0 ≤ x.a then
    (if 0 ≤ x.b then true else decide (3 * x.b ^ 2 ≤ x.a ^ 2))
  else
    (if 0 ≤ x.b then decide (x.a ^ 2 ≤ 3 * x.b ^ 2) else false)

theorem nnegb_iff (x : Q3) : nnegb x = true ↔ 0 ≤ toReal x := by
  unfold nnegb toReal
  split_ifs with ha hb hb
  · simp only [true_iff]
    have ha' : (0 : ℝ) ≤ (x.a : ℝ) := by exact_mod_cast ha
    have hb' : (0 : ℝ) ≤ (x.b : ℝ) := by exact_mod_cast hb
    have := mul_nonneg hb' sqrt3_nonneg
    linarith
  · rw [decide_eq_true_iff]
    have ha' : (0 : ℝ) ≤ (x.a : ℝ) := by exact_mod_cast ha
    have hb' : (x.b : ℝ) < 0 := by exact_mod_cast not_le.mp hb
    rw [show ((3 * x.b ^ 2 ≤ x.a ^ 2)) ↔ (3 * (x.b : ℝ) ^ 2 ≤ (x.a : ℝ) ^ 2) by
      constructor <;> intro h <;> exact_mod_cast h]
    exact sign_aux_pos_neg _ _ ha' hb'
  · rw [decide_eq_true_iff]
    have ha' : (x.a : ℝ) < 0 := by exact_mod_cast not_le.mp ha
    have hb' : (0 : ℝ) ≤ (x.b : ℝ) := by exact_mod_cast hb
    rw [show ((x.a ^ 2 ≤ 3 * x.b ^ 2)) ↔ ((x.a : ℝ) ^ 2 ≤ 3 * (x.b : ℝ) ^ 2) by
      constructor <;> intro h <;> exact_mod_cast h]
    exact sign_aux_neg_pos _ _ ha' hb'
  · simp only [false_iff, not_le]
    have ha' : (x.a : ℝ) < 0 := by exact_mod_cast not_le.mp ha
    have hb' : (x.b : ℝ) < 0 := by exact_mod_cast not_le.mp hb
    exact sign_aux_neg_neg _ _ ha' hb'

instance : LE Q3 := ⟨fun x y => nnegb (y - x) = true⟩

instance : LT Q3 := ⟨fun x y => ¬ (nnegb (x - y) = true)⟩

theorem le_iff_toReal (x y : Q3) : x ≤ y ↔ toReal x ≤ toReal y := by
  show nnegb (y - x) = true ↔ _
  rw [nnegb_iff, toReal_sub]
  exact sub_nonneg

theorem lt_iff_toReal (x y : Q3) : x < y ↔ toReal x < toReal y := by
  show ¬ (nnegb (x - y) = true) ↔ _
  rw [nnegb_iff, toReal_sub, not_le, sub_neg]

instance decidableLE : DecidableRel (α := Q3) (· ≤ ·) := fun x y =>
  inferInstanceAs (Decidable (nnegb (y - x) = true))

instance decidableLT : DecidableRel (α := Q3) (· < ·) := fun x y =>
  inferInstanceAs (Decidable (¬ (nnegb (x - y) = true)))

instance linearOrder : LinearOrder Q3 where
  le := (· ≤ ·)
  lt := (· < ·)
  le_refl x := (le_iff_toReal x x).mpr le_rfl
  le_trans x y z hxy hyz :=
    (le_iff_toReal x z).mpr ((le_iff_toReal x y).mp hxy |>.trans ((le_iff_toReal y z).mp hyz))
  le_antisymm x y hxy hyx :=
    toReal_injective (le_antisymm ((le_iff_toReal x y).mp hxy) ((le_iff_toReal y x).mp hyx))
  le_total x y := by
    rcases le_total (toReal x) (toReal y) with h | h
    · exact Or.inl ((le_iff_toReal x y).mpr h)
    · exact Or.inr ((le_iff_toReal y x).mpr h)
  lt_iff_le_not_le x y := by
    rw [lt_iff_toReal, le_iff_toReal, le_iff_toReal]
    exact lt_iff_le_not_le
  decidableLE := Q3.decidableLE
  decidableLT := Q3.decidableLT
  decidableEq := inferInstance

instance : LinearOrderedField Q3 :=
  { Q3.field, Q3.linearOrder with
    add_le_add_left := by
      intro x y h c
      rw [le_iff_toReal] at h ⊢
      rw [toReal_add, toReal_add]
      linarith
    zero_le_one := by
      rw [le_iff_toReal, toReal_zero, toReal_one]
      norm_num
    mul_pos := by
      intro x y hx hy
      rw [lt_iff_toReal, toReal_zero] at hx hy ⊢
      rw [toReal_mul]
      exact mul_pos hx hy }

theorem sqrt3_pos : (0 : Q3) < sqrt3 := by
  rw [lt_iff_toReal, toReal_zero]
  have ht : toReal sqrt3 = Real.sqrt 3 := by
    unfold toReal sqrt3
    push_cast
    ring
  rw [ht]
  exact sqrt3_pos_real

theorem sqrt3_sq_q3 : sqrt3 * sqrt3 = 3 := by decide

end Q3

/-!  ## Embedding of `src/utils/hexMath.js`

Data model: a vertex map (JS `Map` iterated in insertion order) is a
`List (String × (α × α))`; an edge object `{key, v1, v2}` is `HEdge`;
the enabled-edge set (JS `Set` of keys) is a `Finset String`.  -/

/-- An edge record of the lattice: `{key, v1, v2}` from `generateGrid`. -/
structure HEdge where
  key : String
  v1 : String
  v2 : String
deriving DecidableEq, Repr

/-- JS `<` on strings: lexicographic comparison of UTF-16 code units (all
characters used here are in the basic plane, where code units are code
points). -/
def jsStrLt : List Char → List Char → Bool
  | [], [] => false
  | [], _ :: _ => true
  | _ :: _, [] => false
  | c :: cs, d :: ds =>
    if c.val < d.val then true
    else if d.val < c.val then false
    else jsStrLt cs ds

/-- `getEdgeKey` (hexMath.js line 15): canonical edge key, the two vertex keys
joined by `|` with the JS-smaller one first. -/
def getEdgeKey (v1 v2 : String) : String :=
  if jsStrLt v1.data v2.data then v1 ++ "|" ++ v2 else v2 ++ "|" ++ v1

section HexGeometry

variable {α : Type} [LinearOrderedField α]

/-- `generateHexCenters` (hexMath.js line 86): hex centers row by row
(pointy-top) or column by column (flat-top); the odd parity may have a
different cell count, with JS falsy fallback `colsOdd || cols`.  The
source also stores `col`/`row` on each center but never reads them. -/
def generateHexCenters (cols colsOdd rows rowsOdd : ℕ) (size sqrt3 : α)
    (pointyTop : Bool) : List (α × α) :=
  if pointyTop then
    let horizSpacing := sqrt3 * size
    let vertSpacing := (3 / 2 : α) * size
    (List.range rows).flatMap (fun row =>
      let maxCols := if row % 2 = 1 then (if colsOdd ≠ 0 then colsOdd else cols) else cols
      (List.range maxCols).map (fun (col : ℕ) =>
        let xOffset := if row % 2 = 1 then horizSpacing / 2 else 0
        ((col : α) * horizSpacing + xOffset + horizSpacing / 2,
         (row : α) * vertSpacing + size)))
  else
    let horizSpacing := (3 / 2 : α) * size
    let vertSpacing := sqrt3 * size
    (List.range cols).flatMap (fun col =>
      let maxRows := if col % 2 = 1 then (if rowsOdd ≠ 0 then rowsOdd else rows) else rows
      (List.range maxRows).map (fun (row : ℕ) =>
        let yOffset := if col % 2 = 1 then vertSpacing / 2 else 0
        ((col : α) * horizSpacing + size,
         (row : α) * vertSpacing + yOffset + vertSpacing / 2)))

/-- The 6 corner direction vectors `(cos θᵢ, sin θᵢ)` for
`θᵢ = startAngle + 60°·i`, `startAngle = -90°` (pointy) or `0°` (flat):
the exact values of the source's `Math.cos`/`Math.sin` calls
(`getHexVertices`, hexMath.js line 125); proved equal to the real
cosines/sines in `hexCornerOffsets_pointy_eq`/`hexCornerOffsets_flat_eq`. -/
def hexCornerOffsets (sqrt3 : α) (pointyTop : Bool) : List (α × α) :=
  if pointyTop then
    [(0, -1), (sqrt3 / 2, -(1 / 2)), (sqrt3 / 2, 1 / 2),
     (0, 1), (-(sqrt3 / 2), 1 / 2), (-(sqrt3 / 2), -(1 / 2))]
  else
    [(1, 0), (1 / 2, sqrt3 / 2), (-(1 / 2), sqrt3 / 2),
     (-1, 0), (-(1 / 2), -(sqrt3 / 2)), (1 / 2, -(sqrt3 / 2))]

/-- `getHexVertices` (hexMath.js line 125): the 6 corners of the hexagon
centered at `(cx, cy)`. -/
def getHexVertices (cx cy size sqrt3 : α) (pointyTop : Bool) : List (α × α) :=
  (hexCornerOffsets sqrt3 pointyTop).map (fun d => (cx + size * d.1, cy + size * d.2))

/-- The dedup test of `getVertexId` (hexMath.js line 159):
`|v.x - x| < TOLERANCE && |v.y - y| < TOLERANCE` with `TOLERANCE = 0.01`. -/
def vclose (v c : α × α) : Bool :=
  decide (|v.1 - c.1| < 1 / 100) && decide (|v.2 - c.2| < 1 / 100)

/-- `getVertexId` (hexMath.js line 155): find the first vertex within
tolerance, else append a new one; returns the id and the updated list. -/
def getVertexId (st : List (α × α)) (c : α × α) : ℕ × List (α × α) :=
  match st.findIdx? (fun v => vclose v c) with
  | some i => (i, st)
  | none => (st.length, st ++ [c])

/-- First pass of `generateGrid` (hexMath.js line 170): collect the
deduplicated vertex list over every corner of every hexagon. -/
def collectVertices (centers : List (α × α)) (size sqrt3 : α) (pointyTop : Bool) :
    List (α × α) :=
  centers.foldl (fun st c =>
    (getHexVertices c.1 c.2 size sqrt3 pointyTop).foldl
      (fun st2 v => (getVertexId st2 v).2) st) []

/-- `hexVerts.map(v => getVertexId(v.x, v.y))` (hexMath.js line 190), with the
mutable vertex list threaded through. -/
def mapCornerIds (st : List (α × α)) (corners : List (α × α)) :
    List ℕ × List (α × α) :=
  corners.foldl (fun acc v =>
    let r := getVertexId acc.2 v
    (acc.1 ++ [r.1], r.2)) ([], st)

/-- The inner edge loop of `generateGrid` (hexMath.js line 193): connect
corner `i` to corner `(i+1) % 6`, skipping keys already present. -/
def addHexEdges (ids : List ℕ) (edges : List HEdge) : List HEdge :=
  (List.range 6).foldl (fun es i =>
    let id1 := ids.getD i 0
    let id2 := ids.getD ((i + 1) % 6) 0
    let key1 := toString id1
    let key2 := toString id2
    let ekey := getEdgeKey key1 key2
    if ekey ∈ es.map HEdge.key then es else es ++ [⟨ekey, key1, key2⟩]) edges

/-- The lattice: vertex map (string id → position, insertion order) and
deduplicated edge list. -/
structure HGrid (α : Type) where
  vertices : List (String × (α × α))
  edges : List HEdge

/-- `generateGrid` (hexMath.js line 146): two passes over the hexagons,
first collecting deduplicated vertices, then generating edges through the
same (still mutable) vertex list. -/
def generateGrid (cols colsOdd rows rowsOdd : ℕ) (size sqrt3 : α)
    (pointyTop : Bool) : HGrid α :=
  let centers := generateHexCenters cols colsOdd rows rowsOdd size sqrt3 pointyTop
  let vertexList := collectVertices centers size sqrt3 pointyTop
  let vertices := vertexList.enum.map (fun p => (toString p.1, p.2))
  let res := centers.foldl (fun (acc : List (α × α) × List HEdge) c =>
    let r := mapCornerIds acc.1 (getHexVertices c.1 c.2 size sqrt3 pointyTop)
    (r.2, addHexEdges r.1 acc.2)) (vertexList, [])
  ⟨vertices, res.2⟩

/-!  ### `calculateMirrorAxes` (hexMath.js line 229)  -/

/-- Insertion into a sorted list; `sortAsc` below models the JS
`Array.from(set).sort((a,b) => a-b)`: on a duplicate-free list every
comparison sort returns the same, strictly ascending, list. -/
def insertSorted (x : α) : List α → List α
  | [] => [x]
  | y :: ys => if x ≤ y then x :: y :: ys else y :: insertSorted x ys

/-- Sort ascending (insertion sort). -/
def sortAsc (l : List α) : List α := l.foldr insertSorted []

/-- The distinct coordinates of a list, sorted ascending: models building a
JS `Set` and sorting it numerically. -/
def sortedDedup (l : List α) : List α := sortAsc l.dedup

/-- Consecutive gaps of a list (hexMath.js line 253). -/
def consecGaps (l : List α) : List α := l.zipWith (fun a b => b - a) l.tail

/-- The valid axis-position loop (hexMath.js lines 271-299): push each
vertex coordinate when `includeVerts`, and the midpoint of each gap larger
than 70% of `maxGap` when `includeMids`. -/
def buildValidPositions (includeVerts includeMids : Bool) (maxGap : α) :
    List α → List α
  | [] => []
  | [x] => if includeVerts then [x] else []
  | x :: y :: rest =>
    (if includeVerts then [x] else []) ++
    (if includeMids ∧ y - x > maxGap * (7 / 10) then [(x + y) / 2] else []) ++
    buildValidPositions includeVerts includeMids maxGap (y :: rest)

/-- The loop body of `findBestAxis`: replace the current best only when
closer by more than `0.001`, or on a `0.001`-tie when the candidate is
smaller (the tie branch does not update the best distance). -/
def bestStep (center : α) (acc : α × α) (pos : α) : α × α :=
  let dist := |pos - center|
  if dist < acc.2 - 1 / 1000 then (pos, dist)
  else if |dist - acc.2| < 1 / 1000 ∧ pos < acc.1 then (pos, acc.2)
  else acc

/-- `findBestAxis` (hexMath.js line 305): scan the candidates with
`bestStep`, starting from the first candidate; empty candidate lists fall
back to the raw center. -/
def findBestAxis (positions : List α) (center : α) : α :=
  match positions with
  | [] => center
  | p0 :: _ => (positions.foldl (bestStep center) (p0, |p0 - center|)).1

/-- Result record of `calculateMirrorAxes`. -/
structure MirrorAxes (α : Type) where
  minX : α
  maxX : α
  minY : α
  maxY : α
  centerX : α
  centerY : α
deriving Repr

/-- `calculateMirrorAxes` (hexMath.js line 229).  The source initialises the
extents at `±Infinity`; on the empty map it would return non-finite values,
which is outside the modelled domain — we use `getD 0` for totality and
state theorems only for non-empty maps. -/
def calculateMirrorAxes (vertices : List (String × (α × α))) (pointyTop : Bool) :
    MirrorAxes α :=
  let xs := vertices.map (fun v => v.2.1)
  let ys := vertices.map (fun v => v.2.2)
  let minX := xs.min?.getD 0
  let maxX := xs.max?.getD 0
  let minY := ys.min?.getD 0
  let maxY := ys.max?.getD 0
  let sortedX := sortedDedup xs
  let sortedY := sortedDedup ys
  let maxXGap := (consecGaps sortedX).max?.getD 0
  let maxYGap := (consecGaps sortedY).max?.getD 0
  let validX := buildValidPositions pointyTop (!pointyTop) maxXGap sortedX
  let validY := buildValidPositions (!pointyTop) pointyTop maxYGap sortedY
  let rawCenterX := (minX + maxX) / 2
  let rawCenterY := (minY + maxY) / 2
  ⟨minX, maxX, minY, maxY, findBestAxis validX rawCenterX, findBestAxis validY rawCenterY⟩

/-!  ### `getMirroredEdges` (hexMath.js line 339)  -/

/-- The mirror mode strings `'none' | 'horizontal' | 'vertical' | 'both' |
'radial'`. -/
inductive MirrorMode
  | none
  | horizontal
  | vertical
  | both
  | radial
deriving DecidableEq, Repr

/-- `findNearestVertex` (hexMath.js line 358), with `Math.hypot` distances
compared through their squares (`TOLERANCE = 0.1`, so `0.1² = 1/100`);
`findNearestVertex_hypot` below proves this equal to the source's
square-root comparison over `ℝ`.  The `Option` accumulator models the
`minDist = Infinity` start. -/
def findNearestVertex (vertices : List (String × (α × α))) (tx ty : α) :
    Option String :=
  let best := vertices.foldl (fun (acc : Option (String × α)) kv =>
    let d := (kv.2.1 - tx) ^ 2 + (kv.2.2 - ty) ^ 2
    match acc with
    | Option.none => some (kv.1, d)
    | some (k, d0) => if d < d0 then some (kv.1, d) else some (k, d0)) Option.none
  match best with
  | some (k, d) => if d < (1 / 10) ^ 2 then some k else Option.none
  | Option.none => Option.none

/-- `findNearestVertex` with the distance map and tolerance abstracted:
`dm := fun x => x`, `tol := 0.1²` gives the embedding's squared-distance
form; `dm := Real.sqrt`, `tol := 0.1` gives the source's `Math.hypot`
form. -/
def findNearestVertexWith (dm : α → α) (vertices : List (String × (α × α)))
    (tx ty : α) (tol : α) : Option String :=
  let best := vertices.foldl (fun (acc : Option (String × α)) kv =>
    let d := dm ((kv.2.1 - tx) ^ 2 + (kv.2.2 - ty) ^ 2)
    match acc with
    | Option.none => some (kv.1, d)
    | some (k, d0) => if d < d0 then some (kv.1, d) else some (k, d0)) Option.none
  match best with
  | some (k, d) => if d < tol then some k else Option.none
  | Option.none => Option.none

/-- `findEdge` (hexMath.js line 374): `null` endpoints yield `null`,
otherwise the canonical key if it is a key of `allEdges`. -/
def findEdgeKey (allEdges : List HEdge) : Option String → Option String → Option String
  | some k1, some k2 =>
    let key := getEdgeKey k1 k2
    if allEdges.any (fun e => e.key = key) then some key else Option.none
  | _, _ => Option.none

/-- JS `Set.add` on a list kept duplicate-free in insertion order. -/
def addUniq (l : List String) (k : String) : List String :=
  if k ∈ l then l else l ++ [k]

/-- JS `edgeKey.split('|')`. -/
def splitChar (c : Char) : List Char → List (List Char)
  | [] => [[]]
  | x :: xs =>
    match splitChar c xs with
    | [] => [[]]
    | r :: rs => if x = c then [] :: r :: rs else (x :: r) :: rs

/-- `edgeKey.split('|')` as a list of strings. -/
def jsSplitBar (s : String) : List String :=
  (splitChar '|' s.data).map (fun l => String.mk l)

/-- One mirror block of `getMirroredEdges` (hexMath.js lines 385-419):
reflect both endpoints, resolve each to the nearest vertex within
tolerance, and add the canonical key when that edge exists. -/
def mirrorStep (vertices : List (String × (α × α))) (allEdges : List HEdge)
    (v1 v2 : α × α) (m : α × α → α × α) (results : List String) : List String :=
  let m1 := m v1
  let m2 := m v2
  let mv1 := findNearestVertex vertices m1.1 m1.2
  let mv2 := findNearestVertex vertices m2.1 m2.2
  match findEdgeKey allEdges mv1 mv2 with
  | some k => addUniq results k
  | Option.none => results

/-- `getMirroredEdges` (hexMath.js line 339).  `cols`/`rows` are passed by the
caller but unused by the source. -/
def getMirroredEdges (edgeKey : String) (mirrorMode : MirrorMode) (cols rows : ℕ)
    (pointyTop : Bool) (vertices : List (String × (α × α)))
    (allEdges : List HEdge) : List String :=
  if mirrorMode = MirrorMode.none then [edgeKey] else
  let axes := calculateMirrorAxes vertices pointyTop
  let centerX := axes.centerX
  let centerY := axes.centerY
  match jsSplitBar edgeKey with
  | v1Key :: v2Key :: _ =>
    match vertices.lookup v1Key, vertices.lookup v2Key with
    | some v1, some v2 =>
      let results := [edgeKey]
      let mirrorH := fun (p : α × α) => (2 * centerX - p.1, p.2)
      let mirrorV := fun (p : α × α) => (p.1, 2 * centerY - p.2)
      let mirrorR := fun (p : α × α) => (2 * centerX - p.1, 2 * centerY - p.2)
      let results := if mirrorMode = MirrorMode.horizontal ∨ mirrorMode = MirrorMode.both
        then mirrorStep vertices allEdges v1 v2 mirrorH results else results
      let results := if mirrorMode = MirrorMode.vertical ∨ mirrorMode = MirrorMode.both
        then mirrorStep vertices allEdges v1 v2 mirrorV results else results
      let results := if mirrorMode = MirrorMode.both
        then mirrorStep vertices allEdges v1 v2 mirrorR results else results
      let results := if mirrorMode = MirrorMode.radial
        then mirrorStep vertices allEdges v1 v2 mirrorR results else results
      results
    | _, _ => [edgeKey]
  | _ => [edgeKey]

end HexGeometry

/-!  ### `calculateStats` (hexMath.js line 427)  -/

/-- JS `Map.get(k) || 0`: the value of the first entry with the given key,
else 0. -/
def mapGetD (m : List (String × ℕ)) (k : String) : ℕ :=
  match m with
  | [] => 0
  | p :: rest => if p.1 = k then p.2 else mapGetD rest k

/-- `jointCounts.set(v, (jointCounts.get(v) || 0) + 1)`: update in place
(JS `Map.set` keeps insertion order) or append. -/
def mapIncr (m : List (String × ℕ)) (k : String) : List (String × ℕ) :=
  if m.any (fun p => p.1 = k) then
    m.map (fun p => if p.1 = k then (p.1, p.2 + 1) else p)
  else m ++ [(k, 0 + 1)]

/-- The record returned by `calculateStats`: its exact field set —
`{segments, joints2, joints3, jointCounts}`. -/
structure Stats where
  segments : ℕ
  joints2 : ℕ
  joints3 : ℕ
  jointCounts : List (String × ℕ)
deriving DecidableEq, Repr

/-- The loop body of `calculateStats`: count both endpoints of an enabled
edge. -/
def statsStep (enabledEdges : Finset String) (m : List (String × ℕ)) (e : HEdge) :
    List (String × ℕ) :=
  if e.key ∈ enabledEdges then mapIncr (mapIncr m e.v1) e.v2 else m

/-- The `jointCounts` map built by `calculateStats` (hexMath.js lines 429-437). -/
def jointCountsOf (enabledEdges : Finset String) (allEdges : List HEdge) :
    List (String × ℕ) :=
  allEdges.foldl (statsStep enabledEdges) []

/-- `calculateStats` (hexMath.js line 427): `segments` is the size of the
enabled set; per-vertex counters are incremented for both endpoints of every
enabled edge of `allEdges`; counters equal to 2 are 2-joints, `≥ 3` 3-joints. -/
def calculateStats (enabledEdges : Finset String) (allEdges : List HEdge) : Stats :=
  let segments := enabledEdges.card
  let jointCounts := jointCountsOf enabledEdges allEdges
  let joints2 := (jointCounts.filter (fun p => p.2 = 2)).length
  let joints3 := (jointCounts.filter (fun p => 3 ≤ p.2)).length
  ⟨segments, joints2, joints3, jointCounts⟩

/-!  ## Embedding of `src/hooks/useHexGrid.js` (state layer)  -/

/-- `validEnabledEdges` (useHexGrid.js lines 59-68): keep exactly the stored
keys that are keys of the current lattice. -/
def validEnabledEdges (enabledEdges : Finset String) (allEdges : List HEdge) :
    Finset String :=
  let validEdgeKeys := (allEdges.map HEdge.key).toFinset
  enabledEdges.filter (fun k => k ∈ validEdgeKeys)

section ToggleSection

variable {α : Type} [LinearOrderedField α]

/-- `toggleEdge` (useHexGrid.js lines 83-108): resolve the mirrored set once,
then delete every resolved key when the toggled key is currently enabled,
else add every resolved key. -/
def toggleEdge (mirrorMode : MirrorMode) (cols rows : ℕ) (pointyTop : Bool)
    (vertices : List (String × (α × α))) (allEdges : List HEdge)
    (edgeKey : String) (prev : Finset String) : Finset String :=
  let edgesToToggle := getMirroredEdges edgeKey mirrorMode cols rows pointyTop vertices allEdges
  let isCurrentlyEnabled := edgeKey ∈ prev
  edgesToToggle.foldl (fun current k =>
    if isCurrentlyEnabled then current.erase k else insert k current) prev

end ToggleSection

/-!  ## Specification-side definitions

These follow the wording of the specification (spec.md §4.3, §4.4, §4.5)
and are compared with the embedded source functions in the theorems. -/

section SpecSide

variable {α : Type} [LinearOrderedField α]

/-- Spec §4.4: the transform set of each mirror mode about the resolved axes —
`horizontal → {H}`, `vertical → {V}`, `both → {H, V, HV}`, `radial → {HV}`,
`none → {}`. -/
def specTransforms (mode : MirrorMode) (centerX centerY : α) :
    List (α × α → α × α) :=
  match mode with
  | MirrorMode.none => []
  | MirrorMode.horizontal => [fun p => (2 * centerX - p.1, p.2)]
  | MirrorMode.vertical => [fun p => (p.1, 2 * centerY - p.2)]
  | MirrorMode.both =>
      [fun p => (2 * centerX - p.1, p.2),
       fun p => (p.1, 2 * centerY - p.2),
       fun p => (2 * centerX - p.1, 2 * centerY - p.2)]
  | MirrorMode.radial => [fun p => (2 * centerX - p.1, 2 * centerY - p.2)]

/-- Spec §4.4: resolve one transform — both transformed endpoints must land
on an existing vertex within tolerance 0.1 (nearest vertex, first seen on a
tie), and the canonical key must exist in the edge list; otherwise the
transform is silently omitted. -/
def specResolve (vertices : List (String × (α × α))) (allEdges : List HEdge)
    (v1 v2 : α × α) (t : α × α → α × α) : Option String :=
  findEdgeKey allEdges
    (findNearestVertex vertices (t v1).1 (t v1).2)
    (findNearestVertex vertices (t v2).1 (t v2).2)

/-- Spec §4.4: the set of canonical keys to toggle together — the input key
plus every resolved transform of the mode. -/
def specMirroredSet (edgeKey : String) (mode : MirrorMode)
    (vertices : List (String × (α × α))) (allEdges : List HEdge)
    (pointyTop : Bool) (v1 v2 : α × α) : Finset String :=
  let axes := calculateMirrorAxes vertices pointyTop
  insert edgeKey
    ((specTransforms mode axes.centerX axes.centerY).filterMap
      (specResolve vertices allEdges v1 v2)).toFinset

/-- Spec §4.3: the midpoints of the consecutive gaps exceeding 70% of the
maximum gap. -/
def largeGapMidpoints (l : List α) (maxGap : α) : List α :=
  ((l.zip l.tail).filter (fun p => decide (p.2 - p.1 > maxGap * (7 / 10)))).map
    (fun p => (p.1 + p.2) / 2)

/-- Spec §4.3 (claim C5's selection rule): the candidate closest to the raw
center, a tie within 0.001 resolved to the smaller coordinate; empty
candidate lists fall back to the raw center.  Implemented as: the smallest
candidate whose distance is within 0.001 of the minimum distance. -/
def specBestAxis (positions : List α) (center : α) : α :=
  match positions with
  | [] => center
  | _ =>
    let dists := positions.map (fun p => |p - center|)
    let m := dists.min?.getD 0
    ((positions.filter (fun p => decide (|p - center| < m + 1 / 1000))).min?).getD center

/-- Spec §4.5: the enabled-edge degree of a vertex — the number of endpoint
slots equal to it over the enabled edges of the full edge list. -/
def enabledDegree (enabled : Finset String) (allEdges : List HEdge) (v : String) : ℕ :=
  ((allEdges.filter (fun e => e.key ∈ enabled)).map
    (fun e => (if e.v1 = v then 1 else 0) + (if e.v2 = v then 1 else 0))).sum

/-- Spec §4.5: the vertices that are an endpoint of at least one enabled
edge (degree-0 vertices are not reported). -/
def jointVertexSet (enabled : Finset String) (allEdges : List HEdge) : Finset String :=
  ((allEdges.filter (fun e => e.key ∈ enabled)).flatMap
    (fun e => [e.v1, e.v2])).toFinset

/-- The x coordinates of a vertex map, in iteration order. -/
def xCoordsOf (vertices : List (String × (α × α))) : List α :=
  vertices.map (fun v => v.2.1)

/-- The y coordinates of a vertex map, in iteration order. -/
def yCoordsOf (vertices : List (String × (α × α))) : List α :=
  vertices.map (fun v => v.2.2)

/-- The maximum consecutive gap of the sorted distinct x coordinates. -/
def maxXGapOf (vertices : List (String × (α × α))) : α :=
  (consecGaps (sortedDedup (xCoordsOf vertices))).max?.getD 0

/-- The maximum consecutive gap of the sorted distinct y coordinates. -/
def maxYGapOf (vertices : List (String × (α × α))) : α :=
  (consecGaps (sortedDedup (yCoordsOf vertices))).max?.getD 0

/-- The valid X axis positions built by `calculateMirrorAxes`. -/
def validXOf (vertices : List (String × (α × α))) (pointyTop : Bool) : List α :=
  buildValidPositions pointyTop (!pointyTop) (maxXGapOf vertices)
    (sortedDedup (xCoordsOf vertices))

/-- The valid Y axis positions built by `calculateMirrorAxes`. -/
def validYOf (vertices : List (String × (α × α))) (pointyTop : Bool) : List α :=
  buildValidPositions (!pointyTop) pointyTop (maxYGapOf vertices)
    (sortedDedup (yCoordsOf vertices))

/-- The raw X center: midpoint of the min/max x extents. -/
def rawCenterXOf (vertices : List (String × (α × α))) : α :=
  ((xCoordsOf vertices).min?.getD 0 + (xCoordsOf vertices).max?.getD 0) / 2

/-- The raw Y center: midpoint of the min/max y extents. -/
def rawCenterYOf (vertices : List (String × (α × α))) : α :=
  ((yCoordsOf vertices).min?.getD 0 + (yCoordsOf vertices).max?.getD 0) / 2

end SpecSide

/-!  ## Concrete inputs for the scenario claims, witnesses and
counterexamples.  -/

/-- The pointy-top 2×2 lattice with spacing 18 of the spec's scenario,
computed exactly in `ℚ[√3]`. -/
def grid2x2 : HGrid Q3 := generateGrid 2 2 2 2 (18 : Q3) Q3.sqrt3 true

/-- A tiny spacing (`0.0114`) at which the dedup tolerance `0.01` merges
adjacent corner points of distinct vertices. -/
def tinySpacing : Q3 := ⟨57 / 5000, 0⟩

/-- The 2×2 pointy-top lattice at spacing `0.0114`. -/
def gridTiny : HGrid Q3 := generateGrid 2 2 2 2 tinySpacing Q3.sqrt3 true

/-- A six-vertex lattice with rational coordinates whose mirror axis falls on
`x = 2`: the edge `0|1` at `x = 0` mirrors horizontally onto `2|3` at `x = 4`. -/
def mirrorLatticeV : List (String × (ℚ × ℚ)) :=
  [("0", (0, 0)), ("1", (0, 1)), ("2", (4, 0)), ("3", (4, 1)), ("4", (2, 0)), ("5", (2, 1))]

/-- The two edges of `mirrorLatticeV`. -/
def mirrorLatticeE : List HEdge := [⟨"0|1", "0", "1"⟩, ⟨"2|3", "2", "3"⟩]

/-- Four collinear vertices whose x-coordinates defeat the greedy axis scan:
the candidate distances to the raw center `0.0015` are
`0.0015, 0.00051, 0.0005, 0.0015`, and the scan keeps the first candidate. -/
def denseAxisV : List (String × (ℚ × ℚ)) :=
  [("0", (0, 0)), ("1", (99 / 100000, 0)), ("2", (1 / 1000, 0)), ("3", (3 / 1000, 0))]

/-- The six edges of an isolated hexagon on vertices `0..5`. -/
def hexagonEdges : List HEdge :=
  [⟨"0|1", "0", "1"⟩, ⟨"1|2", "1", "2"⟩, ⟨"2|3", "2", "3"⟩,
   ⟨"3|4", "3", "4"⟩, ⟨"4|5", "4", "5"⟩, ⟨"0|5", "5", "0"⟩]

/-- All six hexagon edge keys enabled. -/
def hexagonEnabled : Finset String := {"0|1", "1|2", "2|3", "3|4", "4|5", "0|5"}

/-- A one-edge lattice used to exhibit the exact output record of
`calculateStats`. -/
def oneEdge : List HEdge := [⟨"0|1", "0", "1"⟩]


/-!  ### Integer lattice layer for the vertex-degree analysis of `generateGrid`  -/

section C4Layer

variable {α : Type} [LinearOrderedField α]

/-- Integer coordinates for corner points: pointy-top positions are
`(sqrt3*s/2 * a, s/2 * b)`, flat-top positions `(s/2 * a, sqrt3*s/2 * b)`
(see `embL`).  In these units the six corner offsets of one hexagon are: -/
def offInt (pointyTop : Bool) : List (ℤ × ℤ) :=
  if pointyTop then [(0, -2), (1, -1), (1, 1), (0, 2), (-1, 1), (-1, -1)]
  else [(2, 0), (1, 1), (-1, 1), (-2, 0), (-1, -1), (1, -1)]

/-- The lattice class of an integer point: pointy-top lattices classify by
`y mod 3` (hex centers are class 2, corners class 0 or 1), flat-top by
`x mod 3`. -/
def clZ (pointyTop : Bool) (p : ℤ × ℤ) : ℤ :=
  if pointyTop then p.2 % 3 else p.1 % 3

/-- The six displacements between consecutive corners of a hexagon. -/
def sixD (pointyTop : Bool) : List (ℤ × ℤ) :=
  if pointyTop then [(1, 1), (0, 2), (-1, 1), (-1, -1), (0, -2), (1, -1)]
  else [(-1, 1), (-2, 0), (-1, -1), (1, -1), (2, 0), (1, 1)]

/-- Two corner-class points are adjacent when their displacement is a
consecutive-corner displacement. -/
def adjZ (pointyTop : Bool) (p q : ℤ × ℤ) : Prop :=
  (clZ pointyTop p = 0 ∨ clZ pointyTop p = 1) ∧
  (clZ pointyTop q = 0 ∨ clZ pointyTop q = 1) ∧
  (q.1 - p.1, q.2 - p.2) ∈ sixD pointyTop

/-- The at-most-3 displacements that can occur at a vertex of a given
class: this is what bounds the vertex degree. -/
def allowedD (pointyTop : Bool) (c : ℤ) : List (ℤ × ℤ) :=
  if pointyTop then
    if c = 0 then [(1, 1), (-1, 1), (0, -2)] else [(0, 2), (-1, -1), (1, -1)]
  else
    if c = 0 then [(1, 1), (1, -1), (-2, 0)] else [(-1, 1), (-1, -1), (2, 0)]

/-- The exact position of an integer lattice point. -/
def embL (pointyTop : Bool) (size sqrt3 : α) (z : ℤ × ℤ) : α × α :=
  if pointyTop then (sqrt3 * size / 2 * z.1, size / 2 * z.2)
  else (size / 2 * z.1, sqrt3 * size / 2 * z.2)

/-- The id `getVertexId` assigns to a position already present in the
vertex list. -/
def idOf (st : List (α × α)) (v : α × α) : ℕ :=
  (st.findIdx? (fun w => vclose w v)).getD 0

/-- Soundness of one generated edge: its two endpoints are ids of adjacent
lattice points of the vertex list. -/
def EOK (pointyTop : Bool) (size sqrt3 : α) (L : List (α × α)) (e : HEdge) : Prop :=
  ∃ z w : ℤ × ℤ, adjZ pointyTop z w ∧
    embL pointyTop size sqrt3 z ∈ L ∧ embL pointyTop size sqrt3 w ∈ L ∧
    e.v1 = toString (idOf L (embL pointyTop size sqrt3 z)) ∧
    e.v2 = toString (idOf L (embL pointyTop size sqrt3 w)) ∧
    e.key = getEdgeKey e.v1 e.v2

end C4Layer

/-- All positions of a vertex-collection state are lattice points. -/
def latticeState {α : Type} [LinearOrderedField α] (pointyTop : Bool)
    (size sqrt3 : α) (st : List (α × α)) : Prop :=
  ∀ v ∈ st, ∃ z : ℤ × ℤ, v = embL pointyTop size sqrt3 z

/-- Soundness of one id pair handed to `addHexEdges`. -/
def pairOK {α : Type} [LinearOrderedField α] (pointyTop : Bool) (size sqrt3 : α)
    (L : List (α × α)) (i1 i2 : ℕ) : Prop :=
  ∃ z w : ℤ × ℤ, adjZ pointyTop z w ∧
    embL pointyTop size sqrt3 z ∈ L ∧ embL pointyTop size sqrt3 w ∈ L ∧
    i1 = idOf L (embL pointyTop size sqrt3 z) ∧ i2 = idOf L (embL pointyTop size sqrt3 w)


/-- `findNearestVertex` as literally written in the source over `ℝ`:
`Math.hypot` distances and the plain `0.1` tolerance. -/
noncomputable def findNearestVertexR (vertices : List (String × (ℝ × ℝ)))
    (tx ty : ℝ) : Option String :=
  findNearestVertexWith Real.sqrt vertices tx ty (1 / 10)

/-!  ### `getGridDimensions` (hexMath.js line 24), over `ℝ`  -/

/-- The record returned by `getGridDimensions`. -/
structure GridDims where
  cols : ℤ
  colsOdd : ℤ
  rows : ℤ
  rowsOdd : ℤ
  actualWidth : ℝ
  actualLength : ℝ

/-- `getGridDimensions` (hexMath.js line 24): cell counts fitted within the
requested physical dimensions, with the staggered parity counted separately,
all counts clamped to at least 1. -/
noncomputable def getGridDimensions (widthInches lengthInches pointSpacing : ℝ)
    (pointyTop : Bool) : GridDims :=
  let edgeLength := pointSpacing
  if pointyTop then
    let hexWidth := Real.sqrt 3 * edgeLength
    let hexHeight := 2 * edgeLength
    let horizSpacing := hexWidth
    let vertSpacing := 1.5 * edgeLength
    let staggerOffset := horizSpacing / 2
    let rows : ℤ := max 1 (⌊(lengthInches - hexHeight) / vertSpacing⌋ + 1)
    let colsEven : ℤ := max 1 (⌊(widthInches - hexWidth) / horizSpacing⌋ + 1)
    let colsOdd : ℤ :=
      if 1 < rows then
        max 1 (⌊(widthInches - hexWidth - staggerOffset) / horizSpacing⌋ + 1)
      else colsEven
    let actualWidth := ((colsEven : ℝ) - 1) * horizSpacing + hexWidth
    let actualLength := ((rows : ℝ) - 1) * vertSpacing + hexHeight
    ⟨colsEven, colsOdd, rows, rows, actualWidth, actualLength⟩
  else
    let hexWidth := 2 * edgeLength
    let hexHeight := Real.sqrt 3 * edgeLength
    let horizSpacing := 1.5 * edgeLength
    let vertSpacing := hexHeight
    let staggerOffset := vertSpacing / 2
    let cols : ℤ := max 1 (⌊(widthInches - hexWidth) / horizSpacing⌋ + 1)
    let rowsEven : ℤ := max 1 (⌊(lengthInches - hexHeight) / vertSpacing⌋ + 1)
    let rowsOdd : ℤ :=
      if 1 < cols then
        max 1 (⌊(lengthInches - hexHeight - staggerOffset) / vertSpacing⌋ + 1)
      else rowsEven
    let actualWidth := ((cols : ℝ) - 1) * horizSpacing + hexWidth
    let actualLength := ((rowsEven : ℝ) - 1) * vertSpacing + hexHeight
    ⟨cols, cols, rowsEven, rowsOdd, actualWidth, actualLength⟩

/-!  ## Theorems  -/

theorem statsFold_congr (s t : Finset String)
    (l : List HEdge) (h : ∀ e ∈ l, ((e.key ∈ s) ↔ (e.key ∈ t))) :
    ∀ m : List (String × ℕ), l.foldl (statsStep s) m = l.foldl (statsStep t) m := by
  induction l with
  | nil => intro m; rfl
  | cons e rest ih =>
    intro m
    have he := h e (List.mem_cons_self e rest)
    have hrest : ∀ e' ∈ rest, ((e'.key ∈ s) ↔ (e'.key ∈ t)) := fun e' he' =>
      h e' (List.mem_cons_of_mem e he')
    simp only [List.foldl_cons]
    rw [show statsStep s m e = statsStep t m e by
      unfold statsStep
      by_cases hm : e.key ∈ s
      · rw [if_pos hm, if_pos (he.mp hm)]
      · rw [if_neg hm, if_neg (fun hc => hm (he.mpr hc))]]
    exact ih hrest (statsStep t m e)

/-- C7.  For every stored enabled-edge set and every edge list, the
valid-enabled-edge computation returns exactly the intersection of the
stored keys with the lattice's key set: known keys are retained, unknown
keys are excluded, and the function is total (no error case). -/
theorem validEnabledEdges_spec (enabled : Finset String) (allEdges : List HEdge) :
    validEnabledEdges enabled allEdges = enabled ∩ (allEdges.map HEdge.key).toFinset ∧
    (∀ k : String, k ∈ validEnabledEdges enabled allEdges ↔
      (k ∈ enabled ∧ k ∈ allEdges.map HEdge.key)) := by
  constructor
  · ext k
    simp [validEnabledEdges, Finset.mem_filter, Finset.mem_inter]
  · intro k
    simp [validEnabledEdges, Finset.mem_filter, List.mem_toFinset]

/-- C6.  The exact output record of `calculateStats` at a one-edge lattice
with its edge enabled: the four fields `{segments, joints2, joints3,
jointCounts}` and nothing else — in particular no bounding box, although
`useHexGrid.js` passes the vertex map for that purpose and the Stats panel
reads `stats.boundingBox`. -/
theorem calculateStats_fields_concrete :
    calculateStats {"0|1"} oneEdge = ⟨1, 0, 0, [("0", 1), ("1", 1)]⟩ := by
  decide

set_option maxRecDepth 2000000 in
/-- C9 (amended).  The pointy-top 2-column × 2-row lattice at spacing 18 has
exactly 16 deduplicated vertices and 19 deduplicated edges. -/
theorem generateGrid_2x2_counts :
    grid2x2.vertices.length = 16 ∧ grid2x2.edges.length = 19 := by
  decide

set_option maxRecDepth 2000000 in
/-- C9 (counterexample).  The claimed vertex count 12 is wrong: the 2×2
pointy-top lattice at spacing 18 has 16 deduplicated vertices (12 vertices
with 19 edges would even violate the degree-3 handshake bound). -/
theorem generateGrid_2x2_not_twelve :
    ¬ (grid2x2.vertices.length = 12 ∧ grid2x2.edges.length = 19) := by
  intro h
  have h12 : grid2x2.vertices.length = 12 := h.1
  have h16 : grid2x2.vertices.length = 16 := by decide
  rw [h16] at h12
  exact absurd h12 (by norm_num)

/-- C10.  Inserting a key that is not a key of the full edge list (and not
already enabled) increments `segments` by one and changes neither the joint
counters nor the classification: degrees are accumulated only from edges of
the full edge list. -/
theorem calculateStats_stale_key (enabled : Finset String) (allEdges : List HEdge)
    (k : String) (hk : k ∉ allEdges.map HEdge.key) (he : k ∉ enabled) :
    calculateStats (insert k enabled) allEdges =
      ⟨(calculateStats enabled allEdges).segments + 1,
       (calculateStats enabled allEdges).joints2,
       (calculateStats enabled allEdges).joints3,
       (calculateStats enabled allEdges).jointCounts⟩ := by
  have hfold : jointCountsOf (insert k enabled) allEdges = jointCountsOf enabled allEdges := by
    unfold jointCountsOf
    apply statsFold_congr
    intro e heL
    have hne : e.key ≠ k := by
      intro hc
      exact hk (hc ▸ List.mem_map_of_mem HEdge.key heL)
    simp [Finset.mem_insert, hne]
  unfold calculateStats
  simp only [hfold, Finset.card_insert_of_not_mem he]

/-- C10 witness: a concrete stale key. -/
theorem calculateStats_stale_key_witness :
    ("zz" ∉ oneEdge.map HEdge.key) ∧ ("zz" ∉ ({"0|1"} : Finset String)) ∧
    calculateStats (insert "zz" {"0|1"}) oneEdge =
      ⟨(calculateStats {"0|1"} oneEdge).segments + 1,
       (calculateStats {"0|1"} oneEdge).joints2,
       (calculateStats {"0|1"} oneEdge).joints3,
       (calculateStats {"0|1"} oneEdge).jointCounts⟩ :=
  ⟨by decide, by decide, calculateStats_stale_key {"0|1"} oneEdge "zz" (by decide) (by decide)⟩

theorem mem_addUniq_self (l : List String) (k : String) : k ∈ addUniq l k := by
  unfold addUniq
  by_cases h : k ∈ l
  · rw [if_pos h]; exact h
  · rw [if_neg h]; exact List.mem_append_right l (List.mem_singleton.mpr rfl)

theorem mem_addUniq_of_mem (l : List String) (k k' : String) (h : k' ∈ l) :
    k' ∈ addUniq l k := by
  unfold addUniq
  by_cases hm : k ∈ l
  · rw [if_pos hm]; exact h
  · rw [if_neg hm]; exact List.mem_append_left _ h

theorem addUniq_nodup (l : List String) (k : String) (h : l.Nodup) :
    (addUniq l k).Nodup := by
  unfold addUniq
  by_cases hm : k ∈ l
  · rw [if_pos hm]; exact h
  · rw [if_neg hm]
    simp [List.nodup_append, h, hm]

theorem mem_mirrorStep_of_mem {α : Type} [LinearOrderedField α]
    (vertices : List (String × (α × α))) (allEdges : List HEdge)
    (v1 v2 : α × α) (m : α × α → α × α) (results : List String) (k : String)
    (h : k ∈ results) : k ∈ mirrorStep vertices allEdges v1 v2 m results := by
  unfold mirrorStep
  cases hE : findEdgeKey allEdges
      (findNearestVertex vertices (m v1).1 (m v1).2)
      (findNearestVertex vertices (m v2).1 (m v2).2) with
  | none => simpa [hE] using h
  | some k2 => simp only [hE]; exact mem_addUniq_of_mem _ _ _ h

theorem mirrorStep_nodup {α : Type} [LinearOrderedField α]
    (vertices : List (String × (α × α))) (allEdges : List HEdge)
    (v1 v2 : α × α) (m : α × α → α × α) (results : List String)
    (h : results.Nodup) : (mirrorStep vertices allEdges v1 v2 m results).Nodup := by
  unfold mirrorStep
  cases hE : findEdgeKey allEdges
      (findNearestVertex vertices (m v1).1 (m v1).2)
      (findNearestVertex vertices (m v2).1 (m v2).2) with
  | none => simpa [hE] using h
  | some k2 => simp only [hE]; exact addUniq_nodup _ _ h

/-- The resolved mirrored set always contains the toggled key. -/
theorem mem_getMirroredEdges_self {α : Type} [LinearOrderedField α]
    (edgeKey : String) (mode : MirrorMode) (cols rows : ℕ) (pointyTop : Bool)
    (vertices : List (String × (α × α))) (allEdges : List HEdge) :
    edgeKey ∈ getMirroredEdges edgeKey mode cols rows pointyTop vertices allEdges := by
  unfold getMirroredEdges
  by_cases h0 : mode = MirrorMode.none
  · simp [h0]
  · rw [if_neg h0]
    cases hsplit : jsSplitBar edgeKey with
    | nil => simp
    | cons a rest =>
      cases rest with
      | nil => simp
      | cons b rest2 =>
        cases hv1 : vertices.lookup a with
        | none => simp [hv1]
        | some v1 =>
          cases hv2 : vertices.lookup b with
          | none => simp [hv1, hv2]
          | some v2 =>
            simp only [hv1, hv2]
            split_ifs <;>
              repeat
                first
                | exact List.mem_singleton.mpr rfl
                | apply mem_mirrorStep_of_mem

/-- The resolved mirrored set is duplicate-free. -/
theorem getMirroredEdges_nodup {α : Type} [LinearOrderedField α]
    (edgeKey : String) (mode : MirrorMode) (cols rows : ℕ) (pointyTop : Bool)
    (vertices : List (String × (α × α))) (allEdges : List HEdge) :
    (getMirroredEdges edgeKey mode cols rows pointyTop vertices allEdges).Nodup := by
  unfold getMirroredEdges
  by_cases h0 : mode = MirrorMode.none
  · simp [h0]
  · rw [if_neg h0]
    cases hsplit : jsSplitBar edgeKey with
    | nil => simp
    | cons a rest =>
      cases rest with
      | nil => simp
      | cons b rest2 =>
        cases hv1 : vertices.lookup a with
        | none => simp [hv1]
        | some v1 =>
          cases hv2 : vertices.lookup b with
          | none => simp [hv1, hv2]
          | some v2 =>
            simp only [hv1, hv2]
            split_ifs <;>
              repeat
                first
                | exact List.nodup_singleton _
                | apply mirrorStep_nodup

theorem foldl_erase_eq (l : List String) (prev : Finset String) :
    l.foldl (fun c k => c.erase k) prev = prev \ l.toFinset := by
  induction l generalizing prev with
  | nil => simp
  | cons k rest ih =>
    simp only [List.foldl_cons, ih (prev.erase k)]
    ext a
    simp only [Finset.mem_sdiff, Finset.mem_erase, List.toFinset_cons,
      Finset.mem_insert, List.mem_toFinset]
    tauto

theorem foldl_insert_eq (l : List String) (prev : Finset String) :
    l.foldl (fun c k => insert k c) prev = prev ∪ l.toFinset := by
  induction l generalizing prev with
  | nil => simp
  | cons k rest ih =>
    simp only [List.foldl_cons, ih (insert k prev)]
    ext a
    simp only [Finset.mem_union, Finset.mem_insert, List.toFinset_cons, List.mem_toFinset]
    tauto

/-- When the toggled key is currently enabled, `toggleEdge` removes the
whole mirrored set. -/
theorem toggleEdge_of_mem {α : Type} [LinearOrderedField α]
    (mode : MirrorMode) (cols rows : ℕ) (pointyTop : Bool)
    (vertices : List (String × (α × α))) (allEdges : List HEdge)
    (edgeKey : String) (prev : Finset String) (h : edgeKey ∈ prev) :
    toggleEdge mode cols rows pointyTop vertices allEdges edgeKey prev =
      prev \ (getMirroredEdges edgeKey mode cols rows pointyTop vertices allEdges).toFinset := by
  unfold toggleEdge
  show List.foldl (fun (current : Finset String) (k : String) =>
      if edgeKey ∈ prev then current.erase k else insert k current) prev
      (getMirroredEdges edgeKey mode cols rows pointyTop vertices allEdges) = _
  rw [show (fun (current : Finset String) (k : String) =>
      if edgeKey ∈ prev then current.erase k else insert k current) =
      (fun (current : Finset String) (k : String) => current.erase k) from
    funext fun c => funext fun k => if_pos h]
  exact foldl_erase_eq _ _

/-- When the toggled key is currently disabled, `toggleEdge` adds the whole
mirrored set. -/
theorem toggleEdge_of_not_mem {α : Type} [LinearOrderedField α]
    (mode : MirrorMode) (cols rows : ℕ) (pointyTop : Bool)
    (vertices : List (String × (α × α))) (allEdges : List HEdge)
    (edgeKey : String) (prev : Finset String) (h : edgeKey ∉ prev) :
    toggleEdge mode cols rows pointyTop vertices allEdges edgeKey prev =
      prev ∪ (getMirroredEdges edgeKey mode cols rows pointyTop vertices allEdges).toFinset := by
  unfold toggleEdge
  show List.foldl (fun (current : Finset String) (k : String) =>
      if edgeKey ∈ prev then current.erase k else insert k current) prev
      (getMirroredEdges edgeKey mode cols rows pointyTop vertices allEdges) = _
  rw [show (fun (current : Finset String) (k : String) =>
      if edgeKey ∈ prev then current.erase k else insert k current) =
      (fun (current : Finset String) (k : String) => insert k current) from
    funext fun c => funext fun k => if_neg h]
  exact foldl_insert_eq _ _

/-- C3 (amended).  Toggling the same key twice (same mode and lattice)
returns the enabled-edge set to its original state provided every key of
the resolved mirrored set starts in the same enabled state as the toggled
key; `toggleEdge_twice_not_involutive` shows the proviso is necessary. -/
theorem toggleEdge_twice_of_uniform {α : Type} [LinearOrderedField α]
    (mode : MirrorMode) (cols rows : ℕ) (pointyTop : Bool)
    (vertices : List (String × (α × α))) (allEdges : List HEdge)
    (edgeKey : String) (prev : Finset String)
    (h : ∀ k ∈ getMirroredEdges edgeKey mode cols rows pointyTop vertices allEdges,
      (k ∈ prev ↔ edgeKey ∈ prev)) :
    toggleEdge mode cols rows pointyTop vertices allEdges edgeKey
      (toggleEdge mode cols rows pointyTop vertices allEdges edgeKey prev) = prev := by
  set S := getMirroredEdges edgeKey mode cols rows pointyTop vertices allEdges with hS
  have hself : edgeKey ∈ S := mem_getMirroredEdges_self _ _ _ _ _ _ _
  by_cases hk : edgeKey ∈ prev
  · have h1 : toggleEdge mode cols rows pointyTop vertices allEdges edgeKey prev =
        prev \ S.toFinset := toggleEdge_of_mem _ _ _ _ _ _ _ _ hk
    have hk2 : edgeKey ∉ prev \ S.toFinset := by
      simp [Finset.mem_sdiff, List.mem_toFinset, hself]
    rw [h1, toggleEdge_of_not_mem _ _ _ _ _ _ _ _ hk2, ← hS]
    have hsub : S.toFinset ⊆ prev := by
      intro k hkS
      exact (h k (List.mem_toFinset.mp hkS)).mpr hk
    ext a
    simp only [Finset.mem_union, Finset.mem_sdiff]
    constructor
    · rintro (⟨ha, _⟩ | ha)
      · exact ha
      · exact hsub ha
    · intro ha
      by_cases haS : a ∈ S.toFinset
      · exact Or.inr haS
      · exact Or.inl ⟨ha, haS⟩
  · have h1 : toggleEdge mode cols rows pointyTop vertices allEdges edgeKey prev =
        prev ∪ S.toFinset := toggleEdge_of_not_mem _ _ _ _ _ _ _ _ hk
    have hk2 : edgeKey ∈ prev ∪ S.toFinset := by
      simp [Finset.mem_union, List.mem_toFinset, hself]
    rw [h1, toggleEdge_of_mem _ _ _ _ _ _ _ _ hk2, ← hS]
    have hdis : ∀ k ∈ S.toFinset, k ∉ prev := by
      intro k hkS hkp
      exact hk ((h k (List.mem_toFinset.mp hkS)).mp hkp)
    ext a
    simp only [Finset.mem_sdiff, Finset.mem_union]
    constructor
    · rintro ⟨ha | ha, hna⟩
      · exact ha
      · exact absurd ha hna
    · intro ha
      exact ⟨Or.inl ha, fun haS => hdis a haS ha⟩

set_option maxRecDepth 400000 in
/-- C3 witness: with mirror mode `none` the resolved set is the toggled key
alone, the uniformity proviso holds trivially, and a double toggle on the
empty set returns the empty set. -/
theorem toggleEdge_twice_witness :
    (∀ k ∈ getMirroredEdges "0|1" MirrorMode.none 0 0 true mirrorLatticeV mirrorLatticeE,
      (k ∈ (∅ : Finset String) ↔ "0|1" ∈ (∅ : Finset String))) ∧
    toggleEdge MirrorMode.none 0 0 true mirrorLatticeV mirrorLatticeE "0|1"
      (toggleEdge MirrorMode.none 0 0 true mirrorLatticeV mirrorLatticeE "0|1" ∅) = ∅ :=
  ⟨by decide, toggleEdge_twice_of_uniform _ _ _ _ _ _ _ _ (by decide)⟩

set_option maxRecDepth 400000 in
/-- C3 (counterexample).  With horizontal mirroring on `mirrorLatticeV`, the
edge `0|1` resolves to the pair `{0|1, 2|3}`; starting from `{0|1}` the
first toggle disables both and the second enables both, ending at
`{0|1, 2|3} ≠ {0|1}`: the double toggle is not the identity. -/
theorem toggleEdge_twice_not_involutive :
    toggleEdge MirrorMode.horizontal 0 0 true mirrorLatticeV mirrorLatticeE "0|1"
      (toggleEdge MirrorMode.horizontal 0 0 true mirrorLatticeV mirrorLatticeE "0|1"
        {"0|1"}) ≠ {"0|1"} := by
  have hS : getMirroredEdges "0|1" MirrorMode.horizontal 0 0 true mirrorLatticeV
      mirrorLatticeE = ["0|1", "2|3"] := by decide
  have h1 : toggleEdge MirrorMode.horizontal 0 0 true mirrorLatticeV mirrorLatticeE "0|1"
      ({"0|1"} : Finset String) = {"0|1"} \ (["0|1", "2|3"] : List String).toFinset := by
    rw [toggleEdge_of_mem _ _ _ _ _ _ _ _ (by decide), hS]
  have hk2 : "0|1" ∉ ({"0|1"} : Finset String) \ (["0|1", "2|3"] : List String).toFinset := by
    decide
  have h2 : toggleEdge MirrorMode.horizontal 0 0 true mirrorLatticeV mirrorLatticeE "0|1"
      (({"0|1"} : Finset String) \ (["0|1", "2|3"] : List String).toFinset) =
      (({"0|1"} : Finset String) \ (["0|1", "2|3"] : List String).toFinset) ∪
        (["0|1", "2|3"] : List String).toFinset := by
    rw [toggleEdge_of_not_mem _ _ _ _ _ _ _ _ hk2, hS]
  rw [h1, h2]
  intro hc
  have hmem : "2|3" ∈ (({"0|1"} : Finset String) \ (["0|1", "2|3"] : List String).toFinset) ∪
      (["0|1", "2|3"] : List String).toFinset := by
    decide
  rw [hc] at hmem
  exact absurd hmem (by decide)

theorem addUniq_toFinset (l : List String) (k : String) :
    (addUniq l k).toFinset = insert k l.toFinset := by
  unfold addUniq
  by_cases hm : k ∈ l
  · rw [if_pos hm]
    exact (Finset.insert_eq_self.mpr (List.mem_toFinset.mpr hm)).symm
  · rw [if_neg hm]
    ext a
    simp [List.mem_toFinset, or_comm]

theorem mirrorStep_toFinset {α : Type} [LinearOrderedField α]
    (vertices : List (String × (α × α))) (allEdges : List HEdge)
    (v1 v2 : α × α) (m : α × α → α × α) (results : List String) :
    (mirrorStep vertices allEdges v1 v2 m results).toFinset =
      results.toFinset ∪ (specResolve vertices allEdges v1 v2 m).toFinset := by
  unfold mirrorStep specResolve
  cases hE : findEdgeKey allEdges
      (findNearestVertex vertices (m v1).1 (m v1).2)
      (findNearestVertex vertices (m v2).1 (m v2).2) with
  | none => simp [hE]
  | some k2 =>
    simp only [hE, addUniq_toFinset, Option.toFinset_some]
    ext a
    simp [or_comm]

/-- C2.  For an edge key that splits into two endpoint keys resolving in the
vertex map, `getMirroredEdges` returns a duplicate-free list that always
contains the input key, and whose key set is exactly the input key together
with the resolved canonical keys of the mode's transform set — horizontal
`{H}`, vertical `{V}`, both `{H, V, HV}`, radial `{HV}`, none `{}` — where a
transform contributes only when both reflected endpoints land on an
existing vertex within tolerance 0.1 and the canonical key exists in the
edge list. -/
theorem getMirroredEdges_spec {α : Type} [LinearOrderedField α]
    (edgeKey : String) (mode : MirrorMode) (cols rows : ℕ) (pointyTop : Bool)
    (vertices : List (String × (α × α))) (allEdges : List HEdge)
    (k1 k2 : String) (v1 v2 : α × α)
    (hsplit : jsSplitBar edgeKey = [k1, k2])
    (hv1 : vertices.lookup k1 = some v1)
    (hv2 : vertices.lookup k2 = some v2) :
    (getMirroredEdges edgeKey mode cols rows pointyTop vertices allEdges).toFinset =
      specMirroredSet edgeKey mode vertices allEdges pointyTop v1 v2 ∧
    edgeKey ∈ getMirroredEdges edgeKey mode cols rows pointyTop vertices allEdges ∧
    (getMirroredEdges edgeKey mode cols rows pointyTop vertices allEdges).Nodup := by
  refine ⟨?_, mem_getMirroredEdges_self _ _ _ _ _ _ _,
    getMirroredEdges_nodup _ _ _ _ _ _ _⟩
  unfold getMirroredEdges specMirroredSet
  cases mode with
  | none => simp [specTransforms]
  | horizontal =>
    simp only [hsplit, hv1, hv2, specTransforms, mirrorStep_toFinset, reduceCtorEq,
      if_false, if_true, or_false, false_or, or_true, true_or, or_self, reduceIte]
    all_goals
      ext a
      simp [List.mem_filterMap]
      try tauto
  | vertical =>
    simp only [hsplit, hv1, hv2, specTransforms, mirrorStep_toFinset, reduceCtorEq,
      if_false, if_true, or_false, false_or, or_true, true_or, or_self, reduceIte]
    all_goals
      ext a
      simp [List.mem_filterMap]
      try tauto
  | both =>
    simp only [hsplit, hv1, hv2, specTransforms, mirrorStep_toFinset, reduceCtorEq,
      if_false, if_true, or_false, false_or, or_true, true_or, or_self, reduceIte]
    all_goals
      ext a
      simp [List.mem_filterMap]
      try tauto
  | radial =>
    simp only [hsplit, hv1, hv2, specTransforms, mirrorStep_toFinset, reduceCtorEq,
      if_false, if_true, or_false, false_or, or_true, true_or, or_self, reduceIte]
    all_goals
      ext a
      simp [List.mem_filterMap]
      try tauto

set_option maxRecDepth 400000 in
/-- C2 witness: horizontal mirroring of `0|1` on the six-vertex lattice. -/
theorem getMirroredEdges_spec_witness :
    (jsSplitBar "0|1" = ["0", "1"] ∧
      mirrorLatticeV.lookup "0" = some ((0 : ℚ), (0 : ℚ)) ∧
      mirrorLatticeV.lookup "1" = some ((0 : ℚ), (1 : ℚ))) ∧
    ((getMirroredEdges "0|1" MirrorMode.horizontal 0 0 true mirrorLatticeV
        mirrorLatticeE).toFinset =
      specMirroredSet "0|1" MirrorMode.horizontal mirrorLatticeV mirrorLatticeE true
        ((0 : ℚ), (0 : ℚ)) ((0 : ℚ), (1 : ℚ)) ∧
    "0|1" ∈ getMirroredEdges "0|1" MirrorMode.horizontal 0 0 true mirrorLatticeV
        mirrorLatticeE ∧
    (getMirroredEdges "0|1" MirrorMode.horizontal 0 0 true mirrorLatticeV
        mirrorLatticeE).Nodup) :=
  ⟨⟨by decide, by decide, by decide⟩,
    getMirroredEdges_spec "0|1" MirrorMode.horizontal 0 0 true mirrorLatticeV
      mirrorLatticeE "0" "1" ((0 : ℚ), (0 : ℚ)) ((0 : ℚ), (1 : ℚ))
      (by decide) (by decide) (by decide)⟩

section AxisTheorems

variable {α : Type} [LinearOrderedField α]

theorem insertSorted_perm (x : α) : ∀ l : List α, List.Perm (insertSorted x l) (x :: l)
  | [] => List.Perm.refl _
  | y :: ys => by
    unfold insertSorted
    by_cases h : x ≤ y
    · rw [if_pos h]
    · rw [if_neg h]
      exact ((insertSorted_perm x ys).cons y).trans (List.Perm.swap x y ys)

theorem insertSorted_sorted (x : α) :
    ∀ l : List α, l.Sorted (· ≤ ·) → (insertSorted x l).Sorted (· ≤ ·)
  | [], _ => List.sorted_singleton x
  | y :: ys, h => by
    unfold insertSorted
    obtain ⟨hy, hys⟩ := List.sorted_cons.mp h
    by_cases hxy : x ≤ y
    · rw [if_pos hxy]
      exact List.sorted_cons.mpr ⟨fun b hb => by
        rcases List.mem_cons.mp hb with rfl | hb
        · exact hxy
        · exact hxy.trans (hy b hb), h⟩
    · rw [if_neg hxy]
      refine List.sorted_cons.mpr ⟨fun b hb => ?_, insertSorted_sorted x ys hys⟩
      have hv : b ∈ x :: ys := ((insertSorted_perm x ys).mem_iff).mp hb
      rcases List.mem_cons.mp hv with rfl | h1
      · exact le_of_not_le hxy
      · exact hy b h1

theorem sortAsc_perm (l : List α) : List.Perm (sortAsc l) l := by
  induction l with
  | nil => rfl
  | cons x xs ih =>
    exact (insertSorted_perm x (sortAsc xs)).trans (ih.cons x)

theorem sortAsc_sorted (l : List α) : (sortAsc l).Sorted (· ≤ ·) := by
  induction l with
  | nil => exact List.sorted_nil
  | cons x xs ih => exact insertSorted_sorted x (sortAsc xs) ih

theorem sortedDedup_sorted (l : List α) : (sortedDedup l).Sorted (· < ·) := by
  have h1 : (sortedDedup l).Sorted (· ≤ ·) := sortAsc_sorted l.dedup
  have h2 : (sortedDedup l).Nodup := ((sortAsc_perm l.dedup).nodup_iff).mpr l.nodup_dedup
  exact h1.lt_of_le h2

theorem largeGapMidpoints_cons2 (x y : α) (rest : List α) (g : α) :
    largeGapMidpoints (x :: y :: rest) g =
      (if y - x > g * (7 / 10) then [(x + y) / 2] else []) ++
        largeGapMidpoints (y :: rest) g := by
  unfold largeGapMidpoints
  by_cases h : y - x > g * (7 / 10)
  · simp [List.zip_cons_cons, List.filter_cons, h]
  · simp [List.zip_cons_cons, List.filter_cons, h]

theorem largeGapMidpoints_head_lt (g : α) :
    ∀ (l : List α) (z : α), l.Sorted (· < ·) → (∀ b ∈ l, z ≤ b) →
      ∀ m ∈ largeGapMidpoints l g, z < m
  | [], _, _, _ => by simp [largeGapMidpoints]
  | [x], _, _, _ => by simp [largeGapMidpoints]
  | x :: y :: rest, z, hsort, hz => by
    intro m hm
    rw [largeGapMidpoints_cons2] at hm
    rcases List.mem_append.mp hm with h1 | h1
    · have hxy : x < y := List.rel_of_sorted_cons hsort y (List.mem_cons_self _ _)
      have hzx : z ≤ x := hz x (List.mem_cons_self _ _)
      by_cases hc : y - x > g * (7 / 10)
      · rw [if_pos hc] at h1
        rw [List.mem_singleton.mp h1]
        linarith
      · rw [if_neg hc] at h1
        exact absurd h1 (List.not_mem_nil m)
    · exact largeGapMidpoints_head_lt g (y :: rest) z (List.sorted_cons.mp hsort).2
        (fun b hb => hz b (List.mem_cons_of_mem x hb)) m h1

theorem largeGapMidpoints_sorted (g : α) :
    ∀ l : List α, l.Sorted (· < ·) → (largeGapMidpoints l g).Sorted (· < ·)
  | [], _ => by simp [largeGapMidpoints]
  | [x], _ => by simp [largeGapMidpoints]
  | x :: y :: rest, hsort => by
    rw [largeGapMidpoints_cons2]
    have htail : (largeGapMidpoints (y :: rest) g).Sorted (· < ·) :=
      largeGapMidpoints_sorted g (y :: rest) (List.sorted_cons.mp hsort).2
    by_cases hc : y - x > g * (7 / 10)
    · rw [if_pos hc]
      rw [show ([(x + y) / 2] ++ largeGapMidpoints (y :: rest) g) =
        ((x + y) / 2) :: largeGapMidpoints (y :: rest) g from rfl]
      refine List.sorted_cons.mpr ⟨fun m hm => ?_, htail⟩
      have hxy : x < y := List.rel_of_sorted_cons hsort y (List.mem_cons_self _ _)
      refine largeGapMidpoints_head_lt g (y :: rest) ((x + y) / 2)
        (List.sorted_cons.mp hsort).2 (fun b hb => ?_) m hm
      have hyb : y ≤ b := by
        rcases List.mem_cons.mp hb with rfl | hb
        · exact le_refl b
        · exact (List.rel_of_sorted_cons (List.sorted_cons.mp hsort).2 b hb).le
      linarith
    · rw [if_neg hc]
      simpa using htail

theorem buildValid_verts (g : α) : ∀ l : List α, buildValidPositions true false g l = l
  | [] => rfl
  | [x] => by simp [buildValidPositions]
  | x :: y :: rest => by
    unfold buildValidPositions
    simp only [if_true, false_and, if_false]
    rw [buildValid_verts g (y :: rest)]
    rfl

theorem buildValid_mids (g : α) :
    ∀ l : List α, buildValidPositions false true g l = largeGapMidpoints l g
  | [] => by simp [buildValidPositions, largeGapMidpoints]
  | [x] => by simp [buildValidPositions, largeGapMidpoints]
  | x :: y :: rest => by
    unfold buildValidPositions
    rw [largeGapMidpoints_cons2, buildValid_mids g (y :: rest)]
    simp [true_and]

theorem bestFold_props (center : α) (l : List α) :
    ∀ acc : α × α, acc.2 = |acc.1 - center| → (∀ p ∈ l, acc.1 < p) →
      l.Sorted (· < ·) →
      ((l.foldl (bestStep center) acc).2 =
          |(l.foldl (bestStep center) acc).1 - center| ∧
        ((l.foldl (bestStep center) acc).1 = acc.1 ∨
          (l.foldl (bestStep center) acc).1 ∈ l) ∧
        (l.foldl (bestStep center) acc).2 ≤ acc.2 ∧
        ∀ p ∈ l, (l.foldl (bestStep center) acc).2 ≤ |p - center| + 1 / 1000) := by
  induction l with
  | nil =>
    intro acc hacc _ _
    exact ⟨hacc, Or.inl rfl, le_refl _, by simp⟩
  | cons pos rest ih =>
    intro acc hacc hgt hsort
    rw [List.foldl_cons]
    have hposgt : acc.1 < pos := hgt pos (List.mem_cons_self _ _)
    obtain ⟨hs1, hs2⟩ := List.sorted_cons.mp hsort
    by_cases h1 : |pos - center| < acc.2 - 1 / 1000
    · have hstep : bestStep center acc pos = (pos, |pos - center|) := by
        unfold bestStep
        rw [if_pos h1]
      rw [hstep]
      have ihr := ih (pos, |pos - center|) rfl hs1 hs2
      refine ⟨ihr.1, ?_, ?_, ?_⟩
      · rcases ihr.2.1 with h | h
        · exact Or.inr (h ▸ List.mem_cons_self _ _)
        · exact Or.inr (List.mem_cons_of_mem _ h)
      · calc (rest.foldl (bestStep center) (pos, |pos - center|)).2
            ≤ |pos - center| := ihr.2.2.1
          _ ≤ acc.2 := by linarith
      · intro p hp
        rcases List.mem_cons.mp hp with rfl | hp'
        · calc (rest.foldl (bestStep center) (p, |p - center|)).2
              ≤ |p - center| := ihr.2.2.1
            _ ≤ |p - center| + 1 / 1000 := by linarith
        · exact ihr.2.2.2 p hp'
    · have hstep : bestStep center acc pos = acc := by
        unfold bestStep
        rw [if_neg h1, if_neg (fun hc => absurd hc.2 (not_lt.mpr hposgt.le))]
      rw [hstep]
      have ihr := ih acc hacc (fun p hp => hgt p (List.mem_cons_of_mem _ hp)) hs2
      refine ⟨ihr.1, ihr.2.1.imp id (List.mem_cons_of_mem _), ihr.2.2.1, ?_⟩
      intro p hp
      rcases List.mem_cons.mp hp with rfl | hp'
      · have : acc.2 ≤ |p - center| + 1 / 1000 := by
          push_neg at h1
          linarith
        linarith [ihr.2.2.1]
      · exact ihr.2.2.2 p hp'

/-- On a strictly ascending candidate list, `findBestAxis` returns a
candidate whose distance to the center is within `0.001` of the minimum. -/
theorem findBestAxis_props (positions : List α) (center : α)
    (hsort : positions.Sorted (· < ·)) (hne : positions ≠ []) :
    findBestAxis positions center ∈ positions ∧
      ∀ p ∈ positions,
        |findBestAxis positions center - center| ≤ |p - center| + 1 / 1000 := by
  match positions, hne with
  | p0 :: rest, _ =>
    unfold findBestAxis
    simp only [List.foldl_cons]
    have hstep : bestStep center (p0, |p0 - center|) p0 = (p0, |p0 - center|) := by
      unfold bestStep
      rw [if_neg (by intro hc; simp at hc; linarith),
        if_neg (fun hc => absurd hc.2 (lt_irrefl p0))]
    rw [hstep]
    obtain ⟨hs1, hs2⟩ := List.sorted_cons.mp hsort
    have ihr := bestFold_props center rest (p0, |p0 - center|) rfl hs1 hs2
    constructor
    · rcases ihr.2.1 with h | h
      · exact h ▸ List.mem_cons_self _ _
      · exact List.mem_cons_of_mem _ h
    · intro p hp
      rw [← ihr.1]
      rcases List.mem_cons.mp hp with rfl | hp'
      · calc (rest.foldl (bestStep center) (p, |p - center|)).2
            ≤ |p - center| := ihr.2.2.1
          _ ≤ |p - center| + 1 / 1000 := by linarith
      · exact ihr.2.2.2 p hp'

end AxisTheorems

section MirrorAxesSpec

variable {α : Type} [LinearOrderedField α]

theorem calculateMirrorAxes_eq (vertices : List (String × (α × α))) (pointyTop : Bool) :
    calculateMirrorAxes vertices pointyTop =
      ⟨(xCoordsOf vertices).min?.getD 0, (xCoordsOf vertices).max?.getD 0,
       (yCoordsOf vertices).min?.getD 0, (yCoordsOf vertices).max?.getD 0,
       findBestAxis (validXOf vertices pointyTop) (rawCenterXOf vertices),
       findBestAxis (validYOf vertices pointyTop) (rawCenterYOf vertices)⟩ := rfl

theorem validXOf_sorted (vertices : List (String × (α × α))) (pointyTop : Bool) :
    (validXOf vertices pointyTop).Sorted (· < ·) := by
  unfold validXOf
  cases pointyTop with
  | true =>
    rw [show (!true) = false from rfl, buildValid_verts]
    exact sortedDedup_sorted _
  | false =>
    rw [show (!false) = true from rfl, buildValid_mids]
    exact largeGapMidpoints_sorted _ _ (sortedDedup_sorted _)

theorem validYOf_sorted (vertices : List (String × (α × α))) (pointyTop : Bool) :
    (validYOf vertices pointyTop).Sorted (· < ·) := by
  unfold validYOf
  cases pointyTop with
  | true =>
    rw [show (!true) = false from rfl, buildValid_mids]
    exact largeGapMidpoints_sorted _ _ (sortedDedup_sorted _)
  | false =>
    rw [show (!false) = true from rfl, buildValid_verts]
    exact sortedDedup_sorted _

/-- C5 (amended).  For a non-empty vertex map: the candidate positions are
exactly as claimed — for pointy-top all distinct vertex X coordinates and
only the large-gap Y midpoints, the roles swapped for flat-top — and an
axis with no candidates falls back to the raw center; but the selected
candidate is only guaranteed to be a candidate whose distance to the raw
center is within 0.001 of the minimal candidate distance (the scan replaces
the best only on a strict 0.001 improvement, so it can keep an earlier,
farther candidate — see `calculateMirrorAxes_not_closest`). -/
theorem calculateMirrorAxes_spec (vertices : List (String × (α × α)))
    (pointyTop : Bool) (_hne : vertices ≠ []) :
    (validXOf vertices pointyTop = (if pointyTop
      then sortedDedup (xCoordsOf vertices)
      else largeGapMidpoints (sortedDedup (xCoordsOf vertices)) (maxXGapOf vertices))) ∧
    (validYOf vertices pointyTop = (if pointyTop
      then largeGapMidpoints (sortedDedup (yCoordsOf vertices)) (maxYGapOf vertices)
      else sortedDedup (yCoordsOf vertices))) ∧
    (validXOf vertices pointyTop = [] →
      (calculateMirrorAxes vertices pointyTop).centerX = rawCenterXOf vertices) ∧
    (validYOf vertices pointyTop = [] →
      (calculateMirrorAxes vertices pointyTop).centerY = rawCenterYOf vertices) ∧
    (validXOf vertices pointyTop ≠ [] →
      (calculateMirrorAxes vertices pointyTop).centerX ∈ validXOf vertices pointyTop ∧
      ∀ p ∈ validXOf vertices pointyTop,
        |(calculateMirrorAxes vertices pointyTop).centerX - rawCenterXOf vertices| ≤
          |p - rawCenterXOf vertices| + 1 / 1000) ∧
    (validYOf vertices pointyTop ≠ [] →
      (calculateMirrorAxes vertices pointyTop).centerY ∈ validYOf vertices pointyTop ∧
      ∀ p ∈ validYOf vertices pointyTop,
        |(calculateMirrorAxes vertices pointyTop).centerY - rawCenterYOf vertices| ≤
          |p - rawCenterYOf vertices| + 1 / 1000) := by
  refine ⟨?_, ?_, ?_, ?_, ?_, ?_⟩
  · unfold validXOf
    cases pointyTop with
    | true => rw [show (!true) = false from rfl, buildValid_verts, if_pos rfl]
    | false =>
      rw [show (!false) = true from rfl, buildValid_mids]
      simp
  · unfold validYOf
    cases pointyTop with
    | true =>
      rw [show (!true) = false from rfl, buildValid_mids]
      simp
    | false => rw [show (!false) = true from rfl, buildValid_verts]; simp
  · intro h
    rw [calculateMirrorAxes_eq]
    rw [show (findBestAxis (validXOf vertices pointyTop) (rawCenterXOf vertices)) =
      findBestAxis [] (rawCenterXOf vertices) from by rw [h]]
    rfl
  · intro h
    rw [calculateMirrorAxes_eq]
    rw [show (findBestAxis (validYOf vertices pointyTop) (rawCenterYOf vertices)) =
      findBestAxis [] (rawCenterYOf vertices) from by rw [h]]
    rfl
  · intro h
    rw [calculateMirrorAxes_eq]
    exact findBestAxis_props _ _ (validXOf_sorted vertices pointyTop) h
  · intro h
    rw [calculateMirrorAxes_eq]
    exact findBestAxis_props _ _ (validYOf_sorted vertices pointyTop) h

end MirrorAxesSpec

/-- C5 witness: a two-vertex pointy-top map, candidates `[0, 4]` for X and
the single midpoint `1/2` for Y. -/
theorem calculateMirrorAxes_spec_witness :
    (([(("a" : String), ((0 : ℚ), (0 : ℚ))), ("b", (4, 1))] :
        List (String × (ℚ × ℚ))) ≠ []) ∧
    (validXOf [(("a" : String), ((0 : ℚ), (0 : ℚ))), ("b", (4, 1))] true =
      (if true then sortedDedup (xCoordsOf [(("a" : String), ((0 : ℚ), (0 : ℚ))), ("b", (4, 1))])
       else largeGapMidpoints (sortedDedup (xCoordsOf [(("a" : String), ((0 : ℚ), (0 : ℚ))), ("b", (4, 1))]))
         (maxXGapOf [(("a" : String), ((0 : ℚ), (0 : ℚ))), ("b", (4, 1))]))) :=
  ⟨by decide,
    (calculateMirrorAxes_spec [(("a" : String), ((0 : ℚ), (0 : ℚ))), ("b", (4, 1))] true
      (by decide)).1⟩

set_option maxRecDepth 400000 in
/-- C5 (counterexample).  On `denseAxisV` (pointy-top) the X candidates are
`[0, 0.00099, 0.001, 0.003]` with raw center `0.0015`; the claimed rule
("closest, ties within 0.001 to the smaller") selects `0.00099`, but the
scan keeps the first candidate `0`, whose distance `0.0015` exceeds the
minimum `0.0005` by `0.001`. -/
theorem calculateMirrorAxes_not_closest :
    (calculateMirrorAxes denseAxisV true).centerX = 0 ∧
    specBestAxis (validXOf denseAxisV true) (rawCenterXOf denseAxisV) = 99 / 100000 ∧
    (calculateMirrorAxes denseAxisV true).centerX ≠
      specBestAxis (validXOf denseAxisV true) (rawCenterXOf denseAxisV) :=
  ⟨by decide, by decide, by decide⟩

theorem dim_count_le (w hexW h : ℝ) (hh : 0 < h) (hw : hexW ≤ w) :
    (((max 1 (⌊(w - hexW) / h⌋ + 1) : ℤ) : ℝ) - 1) * h + hexW ≤ w := by
  have hq : 0 ≤ (w - hexW) / h := div_nonneg (by linarith) hh.le
  have hf : 0 ≤ ⌊(w - hexW) / h⌋ := Int.floor_nonneg.mpr hq
  have hmax : max 1 (⌊(w - hexW) / h⌋ + 1) = ⌊(w - hexW) / h⌋ + 1 :=
    max_eq_right (by omega)
  rw [hmax]
  push_cast
  have hle : (⌊(w - hexW) / h⌋ : ℝ) ≤ (w - hexW) / h := Int.floor_le _
  have h2 : (⌊(w - hexW) / h⌋ : ℝ) * h ≤ (w - hexW) / h * h :=
    mul_le_mul_of_nonneg_right hle hh.le
  rw [div_mul_cancel₀ _ (ne_of_gt hh)] at h2
  linarith

/-- C1 (amended).  For every positive spacing and both orientations, all
four cell counts are at least 1; and whenever the requested width and
length are each at least one hexagon's width and height, the actual
bounding box does not exceed the request.  The size proviso is necessary:
see `getGridDimensions_exceeds_width`. -/
theorem getGridDimensions_bounds (w l s : ℝ) (pt : Bool) (hs : 0 < s) :
    (1 ≤ (getGridDimensions w l s pt).cols ∧
     1 ≤ (getGridDimensions w l s pt).colsOdd ∧
     1 ≤ (getGridDimensions w l s pt).rows ∧
     1 ≤ (getGridDimensions w l s pt).rowsOdd) ∧
    ((if pt then Real.sqrt 3 * s else 2 * s) ≤ w →
      (getGridDimensions w l s pt).actualWidth ≤ w) ∧
    ((if pt then 2 * s else Real.sqrt 3 * s) ≤ l →
      (getGridDimensions w l s pt).actualLength ≤ l) := by
  have hs3 : (0 : ℝ) < Real.sqrt 3 * s := mul_pos sqrt3_pos_real hs
  have hs15 : (0 : ℝ) < 1.5 * s := by norm_num [hs]
  cases pt with
  | true =>
    simp only [getGridDimensions, if_true]
    refine ⟨⟨le_max_left _ _, ?_, le_max_left _ _, le_max_left _ _⟩, ?_, ?_⟩
    · split_ifs
      · exact le_max_left _ _
      · exact le_max_left _ _
    · intro hw
      exact dim_count_le w (Real.sqrt 3 * s) (Real.sqrt 3 * s) hs3 hw
    · intro hl
      exact dim_count_le l (2 * s) (1.5 * s) hs15 hl
  | false =>
    simp only [getGridDimensions, Bool.false_eq_true, if_false]
    refine ⟨⟨le_max_left _ _, le_max_left _ _, le_max_left _ _, ?_⟩, ?_, ?_⟩
    · split_ifs
      · exact le_max_left _ _
      · exact le_max_left _ _
    · intro hw
      exact dim_count_le w (2 * s) (1.5 * s) hs15 hw
    · intro hl
      exact dim_count_le l (Real.sqrt 3 * s) (Real.sqrt 3 * s) hs3 hl

/-- C1 witness: width 100, length 100, spacing 1, pointy-top. -/
theorem getGridDimensions_bounds_witness :
    (0 : ℝ) < 1 ∧
    (1 ≤ (getGridDimensions 100 100 1 true).cols ∧
     1 ≤ (getGridDimensions 100 100 1 true).colsOdd ∧
     1 ≤ (getGridDimensions 100 100 1 true).rows ∧
     1 ≤ (getGridDimensions 100 100 1 true).rowsOdd) ∧
    (getGridDimensions 100 100 1 true).actualWidth ≤ 100 ∧
    (getGridDimensions 100 100 1 true).actualLength ≤ 100 := by
  have hmain := getGridDimensions_bounds 100 100 1 true (by norm_num)
  have hsqrt : Real.sqrt 3 * 1 ≤ 100 := by
    nlinarith [sqrt3_mul_self, sqrt3_nonneg]
  refine ⟨by norm_num, hmain.1, ?_, ?_⟩
  · exact hmain.2.1 (by rw [if_pos rfl]; exact hsqrt)
  · exact hmain.2.2 (by rw [if_pos rfl]; norm_num)

/-- C1 (counterexample).  At requested width 1, length 1, spacing 1
(pointy-top) — all positive — the produced `actualWidth` is `√3 > 1`: the
actual bounding box exceeds the requested width, because the cell counts
are clamped to a minimum of 1 whatever the requested dimensions. -/
theorem getGridDimensions_exceeds_width :
    (0 : ℝ) < 1 ∧ ¬ ((getGridDimensions 1 1 1 true).actualWidth ≤ 1) := by
  refine ⟨by norm_num, ?_⟩
  have h1 : (1 : ℝ) < Real.sqrt 3 := by
    nlinarith [sqrt3_mul_self, sqrt3_nonneg]
  have h2 : Real.sqrt 3 < 2 := by
    nlinarith [sqrt3_mul_self, sqrt3_nonneg]
  have hfloor : ⌊(1 - Real.sqrt 3 * 1) / (Real.sqrt 3 * 1)⌋ = -1 := by
    rw [Int.floor_eq_iff]
    constructor
    · push_cast
      rw [le_div_iff₀ (by linarith)]
      nlinarith
    · push_cast
      rw [div_lt_iff₀ (by linarith)]
      nlinarith
  simp only [getGridDimensions, if_true]
  rw [hfloor]
  intro hc
  norm_num at hc
  try linarith

theorem mapGetD_ne (m : List (String × ℕ)) (k v : String) (h : v ≠ k) :
    mapGetD (m.map (fun q => if q.1 = k then (q.1, q.2 + 1) else q)) v = mapGetD m v := by
  induction m with
  | nil => rfl
  | cons p rest ih =>
    by_cases hp : p.1 = k
    · simp [mapGetD, hp, ih, show ¬ (k = v) from fun hc => h hc.symm]
    · by_cases hv : p.1 = v
      · simp [mapGetD, hp, hv, h]
      · simp [mapGetD, hp, hv, ih]

theorem mapGetD_update (m : List (String × ℕ)) (k : String)
    (h : m.any (fun p => p.1 = k) = true) :
    mapGetD (m.map (fun q => if q.1 = k then (q.1, q.2 + 1) else q)) k =
      mapGetD m k + 1 := by
  induction m with
  | nil => simp at h
  | cons p rest ih =>
    by_cases hp : p.1 = k
    · simp [mapGetD, hp]
    · have h' : rest.any (fun p => p.1 = k) = true := by
        simp [List.any_cons, hp] at h
        simpa using h
      simp [mapGetD, hp, ih h']

theorem mapGetD_absent (m : List (String × ℕ)) (k : String)
    (h : m.any (fun p => p.1 = k) = false) : mapGetD m k = 0 := by
  induction m with
  | nil => rfl
  | cons p rest ih =>
    simp only [List.any_cons, Bool.or_eq_false_iff] at h
    simp only [mapGetD, if_neg (of_decide_eq_false h.1)]
    exact ih h.2

theorem mapGetD_append_single (m : List (String × ℕ)) (k v : String) (n : ℕ) :
    mapGetD (m ++ [(k, n)]) v =
      (if m.any (fun p => p.1 = v) = true then mapGetD m v
       else if k = v then n else 0) := by
  induction m with
  | nil => simp [mapGetD]
  | cons p rest ih =>
    simp only [List.cons_append, mapGetD, List.any_cons]
    by_cases hp : p.1 = v
    · simp [hp]
    · have hd : decide (p.1 = v) = false := decide_eq_false hp
      rw [hd, Bool.false_or, if_neg hp, List.append_eq, ih]
      by_cases hr : (rest.any fun q => decide (q.1 = v)) = true
      · rw [if_pos hr, if_pos hr, if_neg hp]
      · rw [if_neg hr, if_neg hr]

theorem mapGetD_incr (m : List (String × ℕ)) (k v : String) :
    mapGetD (mapIncr m k) v = if v = k then mapGetD m v + 1 else mapGetD m v := by
  unfold mapIncr
  by_cases hany : m.any (fun p => p.1 = k) = true
  · rw [if_pos hany]
    by_cases hv : v = k
    · subst hv
      rw [if_pos rfl, mapGetD_update m v hany]
    · rw [if_neg hv, mapGetD_ne m k v hv]
  · rw [if_neg hany]
    rw [mapGetD_append_single]
    by_cases hv : v = k
    · subst hv
      rw [if_neg (by rw [Bool.not_eq_true] at hany ⊢; exact hany), if_pos rfl, if_pos rfl,
        mapGetD_absent m v (Bool.not_eq_true _ |>.mp hany)]
    · rw [if_neg hv]
      by_cases hva : m.any (fun p => p.1 = v) = true
      · rw [if_pos hva]
      · rw [if_neg hva, if_neg (fun hc => hv hc.symm),
          (mapGetD_absent m v (Bool.not_eq_true _ |>.mp hva)).symm]

theorem keys_update (m : List (String × ℕ)) (k : String) :
    (m.map (fun q => if q.1 = k then (q.1, q.2 + 1) else q)).map Prod.fst =
      m.map Prod.fst := by
  rw [List.map_map]
  apply List.map_congr_left
  intro q _
  by_cases hq : q.1 = k
  · simp [hq]
  · simp [hq]

theorem mem_keys_of_any (m : List (String × ℕ)) (k : String)
    (h : m.any (fun p => p.1 = k) = true) : k ∈ m.map Prod.fst := by
  rcases List.any_eq_true.mp h with ⟨p, hp, hpk⟩
  exact List.mem_map.mpr ⟨p, hp, of_decide_eq_true hpk⟩

theorem mapIncr_keys_toFinset (m : List (String × ℕ)) (k : String) :
    ((mapIncr m k).map Prod.fst).toFinset =
      insert k ((m.map Prod.fst).toFinset) := by
  unfold mapIncr
  by_cases hany : m.any (fun p => p.1 = k) = true
  · rw [if_pos hany, keys_update]
    exact (Finset.insert_eq_self.mpr (List.mem_toFinset.mpr (mem_keys_of_any m k hany))).symm
  · rw [if_neg hany]
    ext a
    simp [or_comm]

theorem mapIncr_keys_nodup (m : List (String × ℕ)) (k : String)
    (h : (m.map Prod.fst).Nodup) : ((mapIncr m k).map Prod.fst).Nodup := by
  unfold mapIncr
  by_cases hany : m.any (fun p => p.1 = k) = true
  · rw [if_pos hany, keys_update]
    exact h
  · rw [if_neg hany]
    have hk : k ∉ m.map Prod.fst := by
      intro hc
      rcases List.mem_map.mp hc with ⟨p, hp, hpk⟩
      have : m.any (fun p => p.1 = k) = true :=
        List.any_eq_true.mpr ⟨p, hp, decide_eq_true hpk⟩
      exact hany this
    simp [List.nodup_append, h, hk]

theorem enabledDegree_cons (enabled : Finset String) (e : HEdge) (rest : List HEdge)
    (v : String) :
    enabledDegree enabled (e :: rest) v =
      (if e.key ∈ enabled
        then (if e.v1 = v then 1 else 0) + (if e.v2 = v then 1 else 0) else 0) +
      enabledDegree enabled rest v := by
  unfold enabledDegree
  rw [List.filter_cons]
  by_cases hk : e.key ∈ enabled
  · simp [hk]
  · simp [hk]

theorem jointCounts_getD (enabled : Finset String) :
    ∀ (l : List HEdge) (m : List (String × ℕ)) (v : String),
      mapGetD (l.foldl (statsStep enabled) m) v = mapGetD m v + enabledDegree enabled l v := by
  intro l
  induction l with
  | nil =>
    intro m v
    simp [enabledDegree]
  | cons e rest ih =>
    intro m v
    rw [List.foldl_cons, ih, enabledDegree_cons]
    unfold statsStep
    by_cases hk : e.key ∈ enabled
    · rw [if_pos hk, if_pos hk, mapGetD_incr, mapGetD_incr]
      have e1 : (e.v1 = v) = (v = e.v1) := propext ⟨Eq.symm, Eq.symm⟩
      have e2 : (e.v2 = v) = (v = e.v2) := propext ⟨Eq.symm, Eq.symm⟩
      simp only [e1, e2]
      split_ifs <;> omega
    · rw [if_neg hk, if_neg hk]
      omega

theorem jointCounts_keys (enabled : Finset String) :
    ∀ (l : List HEdge) (m : List (String × ℕ)),
      ((l.foldl (statsStep enabled) m).map Prod.fst).toFinset =
        (m.map Prod.fst).toFinset ∪
          ((l.filter (fun e => e.key ∈ enabled)).flatMap
            (fun e => [e.v1, e.v2])).toFinset := by
  intro l
  induction l with
  | nil =>
    intro m
    simp
  | cons e rest ih =>
    intro m
    rw [List.foldl_cons, ih, List.filter_cons]
    unfold statsStep
    by_cases hk : e.key ∈ enabled
    · rw [if_pos hk, if_pos (by simpa using hk), mapIncr_keys_toFinset,
        mapIncr_keys_toFinset]
      ext a
      simp only [Finset.mem_union, Finset.mem_insert, List.mem_toFinset,
        List.flatMap_cons, List.mem_append, List.mem_cons, List.mem_flatMap,
        List.not_mem_nil, or_false]
      constructor
      · rintro ((h | h | h) | ⟨e', he', hv⟩)
        · exact Or.inr (Or.inl (Or.inr h))
        · exact Or.inr (Or.inl (Or.inl h))
        · exact Or.inl h
        · exact Or.inr (Or.inr ⟨e', he', hv⟩)
      · rintro (h | (h | h) | ⟨e', he', hv⟩)
        · exact Or.inl (Or.inr (Or.inr h))
        · exact Or.inl (Or.inr (Or.inl h))
        · exact Or.inl (Or.inl h)
        · exact Or.inr ⟨e', he', hv⟩
    · rw [if_neg hk, if_neg (by simpa using hk)]

theorem jointCounts_nodup (enabled : Finset String) :
    ∀ (l : List HEdge) (m : List (String × ℕ)),
      (m.map Prod.fst).Nodup → ((l.foldl (statsStep enabled) m).map Prod.fst).Nodup := by
  intro l
  induction l with
  | nil => intro m h; exact h
  | cons e rest ih =>
    intro m h
    rw [List.foldl_cons]
    apply ih
    unfold statsStep
    by_cases hk : e.key ∈ enabled
    · rw [if_pos hk]
      exact mapIncr_keys_nodup _ _ (mapIncr_keys_nodup _ _ h)
    · rw [if_neg hk]
      exact h

theorem assoc_filter_card (p : ℕ → Bool) :
    ∀ m : List (String × ℕ), (m.map Prod.fst).Nodup →
      (m.filter (fun q => p q.2)).length =
        ((m.map Prod.fst).toFinset.filter (fun v => p (mapGetD m v) = true)).card := by
  intro m
  induction m with
  | nil => intro _; simp
  | cons q rest ih =>
    intro hnd
    have hq : q.1 ∉ rest.map Prod.fst := (List.nodup_cons.mp hnd).1
    have hrest := ih (List.nodup_cons.mp hnd).2
    rw [List.filter_cons]
    have hcongr : (rest.map Prod.fst).toFinset.filter
          (fun v => p (mapGetD (q :: rest) v) = true) =
        (rest.map Prod.fst).toFinset.filter (fun v => p (mapGetD rest v) = true) := by
      apply Finset.filter_congr
      intro v hv
      have hvne : q.1 ≠ v := by
        intro hc
        exact hq (hc ▸ List.mem_toFinset.mp hv)
      simp only [mapGetD, if_neg hvne]
    have hgq : mapGetD (q :: rest) q.1 = q.2 := by
      simp [mapGetD]
    simp only [List.map_cons, List.toFinset_cons]
    rw [Finset.filter_insert, hcongr, hgq]
    by_cases hp : p q.2 = true
    · rw [if_pos hp, if_pos hp,
        Finset.card_insert_of_not_mem (fun hc => hq
          (List.mem_toFinset.mp (Finset.mem_of_mem_filter _ hc))),
        List.length_cons, hrest]
    · rw [if_neg hp, if_neg hp]
      exact hrest

/-- **C8.** For every enabled-edge set that is a subset of the full edge
list's keys, `calculateStats` returns `segments` equal to the size of the
enabled set, `joints2` equal to the number of vertices whose enabled-edge
degree is exactly 2, and `joints3` equal to the number of vertices whose
enabled-edge degree is at least 3; the vertices reported in `jointCounts`
are exactly the endpoints of enabled edges, each of enabled-edge degree at
least 1 (degree-0 vertices are not reported). -/
theorem calculateStats_spec (enabled : Finset String) (allEdges : List HEdge)
    (hsub : enabled ⊆ (allEdges.map HEdge.key).toFinset) :
    (calculateStats enabled allEdges).segments = enabled.card ∧
    (calculateStats enabled allEdges).joints2 =
      ((jointVertexSet enabled allEdges).filter
        (fun v => enabledDegree enabled allEdges v = 2)).card ∧
    (calculateStats enabled allEdges).joints3 =
      ((jointVertexSet enabled allEdges).filter
        (fun v => 3 ≤ enabledDegree enabled allEdges v)).card ∧
    ((calculateStats enabled allEdges).jointCounts.map Prod.fst).toFinset =
      jointVertexSet enabled allEdges ∧
    ∀ v ∈ jointVertexSet enabled allEdges, 1 ≤ enabledDegree enabled allEdges v := by
  have hkeys : ((jointCountsOf enabled allEdges).map Prod.fst).toFinset
      = jointVertexSet enabled allEdges := by
    have h := jointCounts_keys enabled allEdges []
    simpa [jointCountsOf, jointVertexSet] using h
  have hnodup : ((jointCountsOf enabled allEdges).map Prod.fst).Nodup :=
    jointCounts_nodup enabled allEdges [] (by simp)
  have hget : ∀ v, mapGetD (jointCountsOf enabled allEdges) v
      = enabledDegree enabled allEdges v := by
    intro v
    have h := jointCounts_getD enabled allEdges [] v
    simpa [jointCountsOf, mapGetD] using h
  refine ⟨rfl, ?_, ?_, hkeys, ?_⟩
  · have h2 := assoc_filter_card (fun n => decide (n = 2))
      (jointCountsOf enabled allEdges) hnodup
    rw [hkeys] at h2
    refine h2.trans ?_
    congr 1
    apply Finset.filter_congr
    intro v _
    simp [hget v]
  · have h3 := assoc_filter_card (fun n => decide (3 ≤ n))
      (jointCountsOf enabled allEdges) hnodup
    rw [hkeys] at h3
    refine h3.trans ?_
    congr 1
    apply Finset.filter_congr
    intro v _
    simp [hget v]
  · intro v hv
    rcases List.mem_flatMap.mp (List.mem_toFinset.mp hv) with ⟨e, he, hve⟩
    have hterm : (1:ℕ) ≤ (if e.v1 = v then 1 else 0) + (if e.v2 = v then 1 else 0) := by
      rcases List.mem_cons.mp hve with h | h
      · rw [if_pos h.symm]; omega
      · rw [if_pos (List.mem_singleton.mp h).symm]; omega
    have hmem : ((if e.v1 = v then 1 else 0) + (if e.v2 = v then 1 else 0) : ℕ) ∈
        ((allEdges.filter (fun e => e.key ∈ enabled)).map
          (fun e => (if e.v1 = v then 1 else 0) + (if e.v2 = v then 1 else 0))) :=
      List.mem_map.mpr ⟨e, he, rfl⟩
    exact le_trans hterm (List.single_le_sum (fun x _ => Nat.zero_le x) _ hmem)

/-- Instantiation of the `calculateStats` characterization: enabling all 6
edges of an isolated hexagon yields `segments = 6`, `joints2 = 6`,
`joints3 = 0`. -/
theorem calculateStats_spec_witness :
    hexagonEnabled ⊆ (hexagonEdges.map HEdge.key).toFinset ∧
    (calculateStats hexagonEnabled hexagonEdges).segments = 6 ∧
    (calculateStats hexagonEnabled hexagonEdges).joints2 = 6 ∧
    (calculateStats hexagonEnabled hexagonEdges).joints3 = 0 ∧
    (calculateStats hexagonEnabled hexagonEdges).segments = hexagonEnabled.card :=
  ⟨by decide, by decide, by decide, by decide,
    (calculateStats_spec hexagonEnabled hexagonEdges (by decide)).1⟩

theorem adjZ_symm (pt : Bool) (p q : ℤ × ℤ) (h : adjZ pt p q) : adjZ pt q p := by
  obtain ⟨hp, hq, hd⟩ := h
  refine ⟨hq, hp, ?_⟩
  rcases pt <;>
    simp only [sixD, if_true, if_false, Bool.false_eq_true, List.mem_cons,
      List.not_mem_nil, or_false, Prod.mk.injEq] at hd ⊢ <;>
    omega

theorem allowedD_length (pt : Bool) (c : ℤ) : (allowedD pt c).length = 3 := by
  rcases pt <;> by_cases hc : c = 0 <;> simp [allowedD, hc]

theorem adj_allowed (pt : Bool) (p q : ℤ × ℤ) (h : adjZ pt p q) :
    (q.1 - p.1, q.2 - p.2) ∈ allowedD pt (clZ pt p) := by
  obtain ⟨hp, hq, hd⟩ := h
  rcases pt
  · simp only [clZ, Bool.false_eq_true, if_false] at hp hq
    simp [sixD, Prod.ext_iff] at hd
    by_cases h0 : p.1 % 3 = 0
    · simp [allowedD, clZ, h0, Prod.ext_iff]
      omega
    · simp [allowedD, clZ, h0, Prod.ext_iff]
      omega
  · simp only [clZ, if_true] at hp hq
    simp [sixD, Prod.ext_iff] at hd
    by_cases h0 : p.2 % 3 = 0
    · simp [allowedD, clZ, h0, Prod.ext_iff]
      omega
    · simp [allowedD, clZ, h0, Prod.ext_iff]
      omega

theorem ctr_adj (pt : Bool) (z : ℤ × ℤ) (hz : clZ pt z = 2) (k : ℕ) (hk : k < 6) :
    adjZ pt (z + (offInt pt).getD k 0) (z + (offInt pt).getD ((k + 1) % 6) 0) := by
  rcases pt <;> simp only [clZ, if_true, if_false, Bool.false_eq_true] at hz <;>
    interval_cases k <;>
    (norm_num [offInt, sixD, adjZ, clZ, Prod.fst_add, Prod.snd_add,
      Prod.mk.injEq, Prod.ext_iff, List.mem_cons, List.not_mem_nil]) <;> omega

theorem sq3_ge_one {α : Type} [LinearOrderedField α] (q3 : α)
    (h3 : q3 * q3 = 3) (h0 : 0 ≤ q3) : 1 ≤ q3 := by
  nlinarith

section C4Geometry

variable {α : Type} [LinearOrderedField α]

theorem vclose_refl (v : α × α) : vclose v v = true := by
  simp only [vclose, sub_self, abs_zero, Bool.and_eq_true, decide_eq_true_eq]
  norm_num

theorem scale_abs_ge (c : α) (hc : 1 / 100 ≤ c) (n : ℤ) (hn : n ≠ 0) :
    (1 : α) / 100 ≤ |c * (n : α)| := by
  have h1 : (1 : α) ≤ |(n : α)| := by
    have := Int.one_le_abs hn
    calc (1 : α) ≤ ((|n| : ℤ) : α) := by exact_mod_cast this
    _ = |(n : α)| := by push_cast; ring
  have hc0 : (0 : α) ≤ c := le_trans (by norm_num) hc
  calc (1 : α) / 100 ≤ c := hc
  _ = c * 1 := (mul_one c).symm
  _ ≤ c * |(n : α)| := mul_le_mul_of_nonneg_left h1 hc0
  _ = |c * (n : α)| := by rw [abs_mul, abs_of_nonneg hc0]

theorem vclose_embL (pt : Bool) (s q3 : α) (h3 : q3 * q3 = 3) (h0 : 0 ≤ q3)
    (hs : 1 / 50 ≤ s) (z w : ℤ × ℤ) :
    vclose (embL pt s q3 z) (embL pt s q3 w) = true ↔ z = w := by
  have h1 : (1 : α) ≤ q3 := sq3_ge_one q3 h3 h0
  have hxs : (1 : α) / 100 ≤ s / 2 := by linarith
  have hys : (1 : α) / 100 ≤ q3 * s / 2 := by nlinarith
  constructor
  · intro hv
    simp only [vclose, Bool.and_eq_true, decide_eq_true_eq] at hv
    obtain ⟨hvx, hvy⟩ := hv
    by_contra hne
    have hcase : z.1 ≠ w.1 ∨ z.2 ≠ w.2 := by
      by_contra hc
      push_neg at hc
      exact hne (Prod.ext hc.1 hc.2)
    rcases pt
    · simp only [embL, Bool.false_eq_true, if_false] at hvx hvy
      rcases hcase with hne1 | hne2
      · have hg := scale_abs_ge (s / 2) hxs (z.1 - w.1) (sub_ne_zero.mpr hne1)
        have heq : s / 2 * (z.1 : α) - s / 2 * (w.1 : α) =
            s / 2 * ((z.1 - w.1 : ℤ) : α) := by push_cast; ring
        rw [heq] at hvx
        linarith
      · have hg := scale_abs_ge (q3 * s / 2) hys (z.2 - w.2) (sub_ne_zero.mpr hne2)
        have heq : q3 * s / 2 * (z.2 : α) - q3 * s / 2 * (w.2 : α) =
            q3 * s / 2 * ((z.2 - w.2 : ℤ) : α) := by push_cast; ring
        rw [heq] at hvy
        linarith
    · simp only [embL, if_true] at hvx hvy
      rcases hcase with hne1 | hne2
      · have hg := scale_abs_ge (q3 * s / 2) hys (z.1 - w.1) (sub_ne_zero.mpr hne1)
        have heq : q3 * s / 2 * (z.1 : α) - q3 * s / 2 * (w.1 : α) =
            q3 * s / 2 * ((z.1 - w.1 : ℤ) : α) := by push_cast; ring
        rw [heq] at hvx
        linarith
      · have hg := scale_abs_ge (s / 2) hxs (z.2 - w.2) (sub_ne_zero.mpr hne2)
        have heq : s / 2 * (z.2 : α) - s / 2 * (w.2 : α) =
            s / 2 * ((z.2 - w.2 : ℤ) : α) := by push_cast; ring
        rw [heq] at hvy
        linarith
  · rintro rfl
    exact vclose_refl _

theorem embL_inj (pt : Bool) (s q3 : α) (h3 : q3 * q3 = 3) (h0 : 0 ≤ q3)
    (hs : 1 / 50 ≤ s) (z w : ℤ × ℤ) (h : embL pt s q3 z = embL pt s q3 w) : z = w := by
  have := (vclose_embL pt s q3 h3 h0 hs z w).mp (h ▸ vclose_refl (embL pt s q3 z))
  exact this

theorem corner_emb (pt : Bool) (s q3 : α) (z : ℤ × ℤ) :
    getHexVertices (embL pt s q3 z).1 (embL pt s q3 z).2 s q3 pt =
      (offInt pt).map (fun d => embL pt s q3 (z + d)) := by
  rcases pt <;>
    simp [getHexVertices, hexCornerOffsets, offInt, embL, Prod.ext_iff] <;>
    and_intros <;> (push_cast; ring)

theorem centers_valid (pt : Bool) (C CO R RO : ℕ) (s q3 : α) :
    ∀ c ∈ generateHexCenters C CO R RO s q3 pt,
      ∃ z : ℤ × ℤ, clZ pt z = 2 ∧ c = embL pt s q3 z := by
  intro c hc
  unfold generateHexCenters at hc
  rcases pt
  · simp only [Bool.false_eq_true, if_false] at hc
    obtain ⟨col, hcol, hc2⟩ := List.mem_flatMap.mp hc
    obtain ⟨row, hrow, heq⟩ := List.mem_map.mp hc2
    refine ⟨(3 * (col : ℤ) + 2, 2 * (row : ℤ) + (if col % 2 = 1 then 1 else 0) + 1),
      by simp only [clZ, Bool.false_eq_true, if_false]; omega, ?_⟩
    subst heq
    by_cases hodd : col % 2 = 1 <;>
      simp [embL, hodd, Prod.ext_iff] <;>
      constructor <;> (push_cast; ring)
  · simp only [if_true] at hc
    obtain ⟨row, hrow, hc2⟩ := List.mem_flatMap.mp hc
    obtain ⟨col, hcol, heq⟩ := List.mem_map.mp hc2
    refine ⟨(2 * (col : ℤ) + (if row % 2 = 1 then 1 else 0) + 1, 3 * (row : ℤ) + 2),
      by simp only [clZ, if_true]; omega, ?_⟩
    subst heq
    by_cases hodd : row % 2 = 1 <;>
      simp [embL, hodd, Prod.ext_iff] <;>
      constructor <;> (push_cast; ring)

end C4Geometry


section C4Pass1

variable {α : Type} [LinearOrderedField α]
variable (pt : Bool) (s q3 : α)

theorem getVertexId_state (st : List (α × α)) (c : α × α) :
    (getVertexId st c).2 = st ∨ (getVertexId st c).2 = st ++ [c] := by
  unfold getVertexId
  cases h : st.findIdx? (fun v => vclose v c) <;> simp [h]

theorem mem_getVertexId_state (st : List (α × α)) (c v : α × α) (hv : v ∈ st) :
    v ∈ (getVertexId st c).2 := by
  rcases getVertexId_state st c with h | h <;> rw [h]
  · exact hv
  · exact List.mem_append_left _ hv

theorem latticeState_getVertexId (st : List (α × α)) (c : α × α)
    (hst : latticeState pt s q3 st) (hc : ∃ z, c = embL pt s q3 z) :
    latticeState pt s q3 (getVertexId st c).2 := by
  rcases getVertexId_state st c with h | h <;> rw [h]
  · exact hst
  · intro v hv
    rcases List.mem_append.mp hv with h' | h'
    · exact hst v h'
    · rcases List.mem_singleton.mp h' with rfl
      exact hc

theorem self_mem_getVertexId (h3 : q3 * q3 = 3) (h0 : 0 ≤ q3) (hs : 1 / 50 ≤ s)
    (st : List (α × α)) (c : α × α) (z : ℤ × ℤ)
    (hst : latticeState pt s q3 st) (hc : c = embL pt s q3 z) :
    c ∈ (getVertexId st c).2 := by
  unfold getVertexId
  cases h : st.findIdx? (fun v => vclose v c) with
  | none =>
    simp only
    exact List.mem_append_right _ (List.mem_singleton.mpr rfl)
  | some i =>
    simp only
    obtain ⟨hlt, hp, _⟩ := List.findIdx?_eq_some_iff_getElem.mp h
    obtain ⟨w, hw⟩ := hst _ (List.getElem_mem hlt)
    rw [hw, hc] at hp
    obtain rfl := (vclose_embL pt s q3 h3 h0 hs w z).mp hp
    rw [hc, ← hw]
    exact List.getElem_mem hlt

theorem foldl_vid_mono (cs : List (α × α)) :
    ∀ (st : List (α × α)) (v : α × α), v ∈ st →
      v ∈ cs.foldl (fun st2 c => (getVertexId st2 c).2) st := by
  induction cs with
  | nil => intro st v hv; exact hv
  | cons c rest ih =>
    intro st v hv
    exact ih _ _ (mem_getVertexId_state st c v hv)

theorem foldl_vid_lattice (cs : List (α × α)) :
    ∀ st : List (α × α), latticeState pt s q3 st →
      (∀ c ∈ cs, ∃ z, c = embL pt s q3 z) →
      latticeState pt s q3 (cs.foldl (fun st2 c => (getVertexId st2 c).2) st) := by
  induction cs with
  | nil => intro st hst _; exact hst
  | cons c rest ih =>
    intro st hst hcs
    exact ih _ (latticeState_getVertexId pt s q3 st c hst (hcs c (List.mem_cons_self c rest)))
      (fun x hx => hcs x (List.mem_cons_of_mem c hx))

theorem foldl_vid_self (h3 : q3 * q3 = 3) (h0 : 0 ≤ q3) (hs : 1 / 50 ≤ s)
    (cs : List (α × α)) :
    ∀ st : List (α × α), latticeState pt s q3 st →
      (∀ c ∈ cs, ∃ z, c = embL pt s q3 z) →
      ∀ c ∈ cs, c ∈ cs.foldl (fun st2 c => (getVertexId st2 c).2) st := by
  induction cs with
  | nil => intro st _ _ c hc; exact absurd hc (List.not_mem_nil c)
  | cons c0 rest ih =>
    intro st hst hcs c hc
    rcases List.mem_cons.mp hc with rfl | hc'
    · obtain ⟨z, hz⟩ := hcs c (List.mem_cons_self c rest)
      exact foldl_vid_mono rest _ c
        (self_mem_getVertexId pt s q3 h3 h0 hs st c z hst hz)
    · exact ih _ (latticeState_getVertexId pt s q3 st c0 hst (hcs c0 (List.mem_cons_self c0 rest)))
        (fun x hx => hcs x (List.mem_cons_of_mem c0 hx)) c hc'

end C4Pass1

section C4Pass1b

variable {α : Type} [LinearOrderedField α]
variable (pt : Bool) (s q3 : α)

theorem corner_points (c : α × α)
    (hc : ∃ ζ : ℤ × ℤ, clZ pt ζ = 2 ∧ c = embL pt s q3 ζ) :
    ∀ v ∈ getHexVertices c.1 c.2 s q3 pt, ∃ z, v = embL pt s q3 z := by
  obtain ⟨ζ, _, rfl⟩ := hc
  intro v hv
  rw [corner_emb] at hv
  obtain ⟨d, _, rfl⟩ := List.mem_map.mp hv
  exact ⟨ζ + d, rfl⟩

theorem foldl_ctr_mono (centers : List (α × α)) :
    ∀ (st : List (α × α)) (v : α × α), v ∈ st →
      v ∈ centers.foldl (fun st c =>
        (getHexVertices c.1 c.2 s q3 pt).foldl (fun st2 v => (getVertexId st2 v).2) st) st := by
  induction centers with
  | nil => intro st v hv; exact hv
  | cons c rest ih =>
    intro st v hv
    exact ih _ _ (foldl_vid_mono _ _ _ hv)

theorem foldl_ctr_lattice (centers : List (α × α)) :
    ∀ st : List (α × α), latticeState pt s q3 st →
      (∀ c ∈ centers, ∃ ζ : ℤ × ℤ, clZ pt ζ = 2 ∧ c = embL pt s q3 ζ) →
      latticeState pt s q3 (centers.foldl (fun st c =>
        (getHexVertices c.1 c.2 s q3 pt).foldl (fun st2 v => (getVertexId st2 v).2) st) st) := by
  induction centers with
  | nil => intro st hst _; exact hst
  | cons c rest ih =>
    intro st hst hc
    exact ih _
      (foldl_vid_lattice pt s q3 _ st hst
        (corner_points pt s q3 c (hc c (List.mem_cons_self c rest))))
      (fun x hx => hc x (List.mem_cons_of_mem c hx))

theorem foldl_ctr_corners (h3 : q3 * q3 = 3) (h0 : 0 ≤ q3) (hs : 1 / 50 ≤ s)
    (centers : List (α × α)) :
    ∀ st : List (α × α), latticeState pt s q3 st →
      (∀ c ∈ centers, ∃ ζ : ℤ × ℤ, clZ pt ζ = 2 ∧ c = embL pt s q3 ζ) →
      ∀ c ∈ centers, ∀ v ∈ getHexVertices c.1 c.2 s q3 pt,
        v ∈ centers.foldl (fun st c =>
          (getHexVertices c.1 c.2 s q3 pt).foldl (fun st2 v => (getVertexId st2 v).2) st) st := by
  induction centers with
  | nil => intro st _ _ c hc; exact absurd hc (List.not_mem_nil c)
  | cons c0 rest ih =>
    intro st hst hc c hcmem v hv
    rcases List.mem_cons.mp hcmem with rfl | hc'
    · have hvin : v ∈ (getHexVertices c.1 c.2 s q3 pt).foldl
          (fun st2 v => (getVertexId st2 v).2) st :=
        foldl_vid_self pt s q3 h3 h0 hs _ st hst
          (corner_points pt s q3 c (hc c (List.mem_cons_self c rest))) v hv
      exact foldl_ctr_mono pt s q3 rest _ v hvin
    · exact ih _
        (foldl_vid_lattice pt s q3 _ st hst
          (corner_points pt s q3 c0 (hc c0 (List.mem_cons_self c0 rest))))
        (fun x hx => hc x (List.mem_cons_of_mem c0 hx)) c hc' v hv

theorem collectVertices_lattice (centers : List (α × α))
    (hc : ∀ c ∈ centers, ∃ ζ : ℤ × ℤ, clZ pt ζ = 2 ∧ c = embL pt s q3 ζ) :
    latticeState pt s q3 (collectVertices centers s q3 pt) := by
  unfold collectVertices
  exact foldl_ctr_lattice pt s q3 centers [] (fun v hv => absurd hv (List.not_mem_nil v)) hc

theorem collectVertices_corners (h3 : q3 * q3 = 3) (h0 : 0 ≤ q3) (hs : 1 / 50 ≤ s)
    (centers : List (α × α))
    (hc : ∀ c ∈ centers, ∃ ζ : ℤ × ℤ, clZ pt ζ = 2 ∧ c = embL pt s q3 ζ) :
    ∀ c ∈ centers, ∀ v ∈ getHexVertices c.1 c.2 s q3 pt,
      v ∈ collectVertices centers s q3 pt := by
  unfold collectVertices
  exact foldl_ctr_corners pt s q3 h3 h0 hs centers []
    (fun v hv => absurd hv (List.not_mem_nil v)) hc

end C4Pass1b

section C4Pass2

variable {α : Type} [LinearOrderedField α]
variable (pt : Bool) (s q3 : α)

theorem getVertexId_found (st : List (α × α)) (v : α × α) (hmem : v ∈ st) :
    getVertexId st v = (idOf st v, st) := by
  have hex : ∃ x, x ∈ st ∧ vclose x v = true := ⟨v, hmem, vclose_refl v⟩
  unfold getVertexId idOf
  rw [List.findIdx?_eq_some_of_exists hex]
  rfl

theorem idOf_inj (h3 : q3 * q3 = 3) (h0 : 0 ≤ q3) (hs : 1 / 50 ≤ s)
    (L : List (α × α)) (hst : latticeState pt s q3 L) (z w : ℤ × ℤ)
    (hz : embL pt s q3 z ∈ L) (hw : embL pt s q3 w ∈ L)
    (h : idOf L (embL pt s q3 z) = idOf L (embL pt s q3 w)) : z = w := by
  have hexz : ∃ x, x ∈ L ∧ vclose x (embL pt s q3 z) = true :=
    ⟨_, hz, vclose_refl _⟩
  have hexw : ∃ x, x ∈ L ∧ vclose x (embL pt s q3 w) = true :=
    ⟨_, hw, vclose_refl _⟩
  have hiz := List.findIdx?_eq_some_of_exists hexz
  have hiw := List.findIdx?_eq_some_of_exists hexw
  obtain ⟨hltz, hpz, _⟩ := List.findIdx?_eq_some_iff_getElem.mp hiz
  obtain ⟨hltw, hpw, _⟩ := List.findIdx?_eq_some_iff_getElem.mp hiw
  obtain ⟨a, ha⟩ := hst _ (List.getElem_mem hltz)
  obtain ⟨b, hb⟩ := hst _ (List.getElem_mem hltw)
  rw [ha] at hpz
  rw [hb] at hpw
  obtain rfl := (vclose_embL pt s q3 h3 h0 hs a z).mp hpz
  obtain rfl := (vclose_embL pt s q3 h3 h0 hs b w).mp hpw
  have hidx : L.findIdx (fun x => vclose x (embL pt s q3 a)) =
      L.findIdx (fun x => vclose x (embL pt s q3 b)) := by
    have h1 : idOf L (embL pt s q3 a) = L.findIdx (fun x => vclose x (embL pt s q3 a)) := by
      unfold idOf
      rw [hiz]
      rfl
    have h2 : idOf L (embL pt s q3 b) = L.findIdx (fun x => vclose x (embL pt s q3 b)) := by
      unfold idOf
      rw [hiw]
      rfl
    rw [← h1, ← h2, h]
  apply embL_inj pt s q3 h3 h0 hs
  simp_rw [← hidx] at hb
  exact ha.symm.trans hb

theorem mapCornerIds_aux (st : List (α × α)) (cs : List (α × α))
    (h : ∀ v ∈ cs, v ∈ st) :
    ∀ ids0 : List ℕ,
      cs.foldl (fun acc v =>
        let r := getVertexId acc.2 v
        (acc.1 ++ [r.1], r.2)) (ids0, st) =
      (ids0 ++ cs.map (fun v => idOf st v), st) := by
  induction cs with
  | nil => intro ids0; simp
  | cons c rest ih =>
    intro ids0
    have hstep : getVertexId st c = (idOf st c, st) :=
      getVertexId_found st c (h c (List.mem_cons_self c rest))
    simp only [List.foldl_cons, hstep]
    rw [ih (fun v hv => h v (List.mem_cons_of_mem c hv)) (ids0 ++ [idOf st c])]
    simp

theorem mapCornerIds_eq (st : List (α × α)) (cs : List (α × α))
    (h : ∀ v ∈ cs, v ∈ st) :
    mapCornerIds st cs = (cs.map (fun v => idOf st v), st) := by
  unfold mapCornerIds
  simpa using mapCornerIds_aux st cs h []

theorem gridFold_inv (L : List (α × α)) (centers : List (α × α))
    (hsub : ∀ c ∈ centers, ∀ v ∈ getHexVertices c.1 c.2 s q3 pt, v ∈ L) :
    ∀ es0 : List HEdge,
      centers.foldl (fun (acc : List (α × α) × List HEdge) c =>
        let r := mapCornerIds acc.1 (getHexVertices c.1 c.2 s q3 pt)
        (r.2, addHexEdges r.1 acc.2)) (L, es0) =
      (L, centers.foldl (fun es c =>
        addHexEdges ((getHexVertices c.1 c.2 s q3 pt).map (fun v => idOf L v)) es) es0) := by
  induction centers with
  | nil => intro es0; rfl
  | cons c rest ih =>
    intro es0
    have hstep := mapCornerIds_eq L (getHexVertices c.1 c.2 s q3 pt)
      (hsub c (List.mem_cons_self c rest))
    simp only [List.foldl_cons, hstep]
    exact ih (fun x hx => hsub x (List.mem_cons_of_mem c hx)) _

theorem generateGrid_edges_eq (C CO R RO : ℕ)
    (hsub : ∀ c ∈ generateHexCenters C CO R RO s q3 pt,
      ∀ v ∈ getHexVertices c.1 c.2 s q3 pt,
        v ∈ collectVertices (generateHexCenters C CO R RO s q3 pt) s q3 pt) :
    (generateGrid C CO R RO s q3 pt).edges =
      (generateHexCenters C CO R RO s q3 pt).foldl (fun es c =>
        addHexEdges ((getHexVertices c.1 c.2 s q3 pt).map
          (fun v => idOf (collectVertices (generateHexCenters C CO R RO s q3 pt) s q3 pt) v)) es) [] := by
  unfold generateGrid
  simp only
  rw [gridFold_inv pt s q3 _ _ hsub []]

end C4Pass2


section C4Edges

variable {α : Type} [LinearOrderedField α]
variable (pt : Bool) (s q3 : α)

theorem offInt_map_getD {β : Type} (f : ℤ × ℤ → β) (d0 : β) (k : ℕ) (hk : k < 6) :
    ((offInt pt).map f).getD k d0 = f ((offInt pt).getD k 0) := by
  rcases pt <;> interval_cases k <;> rfl

theorem offInt_getD_mem (k : ℕ) (hk : k < 6) : (offInt pt).getD k 0 ∈ offInt pt := by
  rcases pt <;> interval_cases k <;> simp [offInt]

theorem addHexEdges_sound_aux (L : List (α × α)) (ids : List ℕ)
    (hpair : ∀ k, k < 6 → pairOK pt s q3 L (ids.getD k 0) (ids.getD ((k + 1) % 6) 0)) :
    ∀ (l : List ℕ), (∀ k ∈ l, k < 6) →
    ∀ es : List HEdge, (∀ e ∈ es, EOK pt s q3 L e) → (es.map HEdge.key).Nodup →
      (∀ e ∈ l.foldl (fun es i =>
          let id1 := ids.getD i 0
          let id2 := ids.getD ((i + 1) % 6) 0
          let key1 := toString id1
          let key2 := toString id2
          let ekey := getEdgeKey key1 key2
          if ekey ∈ es.map HEdge.key then es else es ++ [⟨ekey, key1, key2⟩]) es,
        EOK pt s q3 L e) ∧
      ((l.foldl (fun es i =>
          let id1 := ids.getD i 0
          let id2 := ids.getD ((i + 1) % 6) 0
          let key1 := toString id1
          let key2 := toString id2
          let ekey := getEdgeKey key1 key2
          if ekey ∈ es.map HEdge.key then es else es ++ [⟨ekey, key1, key2⟩]) es).map
        HEdge.key).Nodup := by
  intro l
  induction l with
  | nil => intro _ es hes hnd; exact ⟨hes, hnd⟩
  | cons i rest ih =>
    intro hl es hes hnd
    simp only [List.foldl_cons]
    by_cases hin : getEdgeKey (toString (ids.getD i 0)) (toString (ids.getD ((i + 1) % 6) 0))
        ∈ es.map HEdge.key
    · rw [if_pos hin]
      exact ih (fun k hk => hl k (List.mem_cons_of_mem i hk)) es hes hnd
    · rw [if_neg hin]
      have hi6 : i < 6 := hl i (List.mem_cons_self i rest)
      obtain ⟨z, w, hadj, hz, hw, hid1, hid2⟩ := hpair i hi6
      refine ih (fun k hk => hl k (List.mem_cons_of_mem i hk)) _ ?_ ?_
      · intro e he
        rcases List.mem_append.mp he with h' | h'
        · exact hes e h'
        · rcases List.mem_singleton.mp h' with rfl
          exact ⟨z, w, hadj, hz, hw, by rw [hid1], by rw [hid2], rfl⟩
      · rw [List.map_append]
        have hdisj : (es.map HEdge.key).Disjoint
            [getEdgeKey (toString (ids.getD i 0)) (toString (ids.getD ((i + 1) % 6) 0))] := by
          intro a ha ha'
          rcases List.mem_singleton.mp ha' with rfl
          exact hin ha
        exact List.Nodup.append hnd (List.nodup_singleton _) hdisj

theorem addHexEdges_sound (L : List (α × α)) (ids : List ℕ) (es : List HEdge)
    (hpair : ∀ k, k < 6 → pairOK pt s q3 L (ids.getD k 0) (ids.getD ((k + 1) % 6) 0))
    (hes : ∀ e ∈ es, EOK pt s q3 L e) (hnd : (es.map HEdge.key).Nodup) :
    (∀ e ∈ addHexEdges ids es, EOK pt s q3 L e) ∧
    ((addHexEdges ids es).map HEdge.key).Nodup := by
  unfold addHexEdges
  exact addHexEdges_sound_aux pt s q3 L ids hpair (List.range 6)
    (fun k hk => List.mem_range.mp hk) es hes hnd

theorem hex_pair (L : List (α × α)) (ζ : ℤ × ℤ) (hζ : clZ pt ζ = 2)
    (hcor : ∀ v ∈ getHexVertices (embL pt s q3 ζ).1 (embL pt s q3 ζ).2 s q3 pt, v ∈ L) :
    ∀ k, k < 6 → pairOK pt s q3 L
      (((getHexVertices (embL pt s q3 ζ).1 (embL pt s q3 ζ).2 s q3 pt).map
        (fun v => idOf L v)).getD k 0)
      (((getHexVertices (embL pt s q3 ζ).1 (embL pt s q3 ζ).2 s q3 pt).map
        (fun v => idOf L v)).getD ((k + 1) % 6) 0) := by
  intro k hk
  have hk1 : (k + 1) % 6 < 6 := Nat.mod_lt _ (by norm_num)
  have hc := corner_emb pt s q3 ζ
  rw [hc, List.map_map, offInt_map_getD pt _ _ k hk, offInt_map_getD pt _ _ _ hk1]
  refine ⟨ζ + (offInt pt).getD k 0, ζ + (offInt pt).getD ((k + 1) % 6) 0,
    ctr_adj pt ζ hζ k hk, ?_, ?_, rfl, rfl⟩
  · apply hcor
    rw [hc]
    exact List.mem_map.mpr ⟨(offInt pt).getD k 0, offInt_getD_mem pt k hk, rfl⟩
  · apply hcor
    rw [hc]
    exact List.mem_map.mpr ⟨(offInt pt).getD ((k + 1) % 6) 0, offInt_getD_mem pt _ hk1, rfl⟩

theorem edges_fold_sound (L : List (α × α)) (centers : List (α × α))
    (hctr : ∀ c ∈ centers, ∃ ζ : ℤ × ℤ, clZ pt ζ = 2 ∧ c = embL pt s q3 ζ)
    (hcor : ∀ c ∈ centers, ∀ v ∈ getHexVertices c.1 c.2 s q3 pt, v ∈ L) :
    ∀ es : List HEdge, (∀ e ∈ es, EOK pt s q3 L e) → (es.map HEdge.key).Nodup →
      (∀ e ∈ centers.foldl (fun es c =>
          addHexEdges ((getHexVertices c.1 c.2 s q3 pt).map (fun v => idOf L v)) es) es,
        EOK pt s q3 L e) ∧
      ((centers.foldl (fun es c =>
          addHexEdges ((getHexVertices c.1 c.2 s q3 pt).map (fun v => idOf L v)) es) es).map
        HEdge.key).Nodup := by
  induction centers with
  | nil => intro es hes hnd; exact ⟨hes, hnd⟩
  | cons c rest ih =>
    intro es hes hnd
    obtain ⟨ζ, hζ, rfl⟩ := hctr c (List.mem_cons_self c rest)
    have hpairs := hex_pair pt s q3 L ζ hζ (hcor _ (List.mem_cons_self _ rest))
    simp only [List.foldl_cons]
    obtain ⟨hes', hnd'⟩ := addHexEdges_sound pt s q3 L _ es hpairs hes hnd
    exact ih (fun x hx => hctr x (List.mem_cons_of_mem _ hx))
      (fun x hx => hcor x (List.mem_cons_of_mem _ hx)) _ hes' hnd'

end C4Edges

theorem uint32_lt_iff (a b : UInt32) : a < b ↔ a.toNat < b.toNat := by
  rw [UInt32.lt_def, BitVec.lt_def]
  exact Iff.rfl

theorem jsStrLt_asymm : ∀ a b : List Char, jsStrLt a b = true → jsStrLt b a = false := by
  intro a
  induction a with
  | nil =>
    intro b h
    cases b with
    | nil => simpa [jsStrLt] using h
    | cons d ds => simp [jsStrLt]
  | cons c cs ih =>
    intro b h
    cases b with
    | nil => simp [jsStrLt] at h
    | cons d ds =>
      simp only [jsStrLt] at h ⊢
      by_cases h1 : c.val < d.val
      · have h2 : ¬ d.val < c.val := by
          rw [uint32_lt_iff] at h1 ⊢
          omega
        simp [h1, h2]
      · by_cases h2 : d.val < c.val
        · simp [h1, h2] at h
        · simp only [h1, h2, if_false] at h
          simp only [h1, h2, if_false]
          exact ih ds h

theorem jsStrLt_total : ∀ a b : List Char,
    jsStrLt a b = false → jsStrLt b a = false → a = b := by
  intro a
  induction a with
  | nil =>
    intro b h1 _
    cases b with
    | nil => rfl
    | cons d ds => simp [jsStrLt] at h1
  | cons c cs ih =>
    intro b h1 h2
    cases b with
    | nil => simp [jsStrLt] at h2
    | cons d ds =>
      simp only [jsStrLt] at h1 h2
      by_cases hcd : c.val < d.val
      · simp [hcd] at h1
      · by_cases hdc : d.val < c.val
        · simp [hdc, hcd] at h2
        · have hv : c.val = d.val := by
            rw [uint32_lt_iff] at hcd hdc
            exact UInt32.toNat.inj (by omega)
          have hc : c = d := Char.ext hv
          subst hc
          simp only [hcd, if_false, lt_irrefl] at h1 h2
          rw [ih ds h1 h2]

theorem getEdgeKey_comm (a b : String) : getEdgeKey a b = getEdgeKey b a := by
  unfold getEdgeKey
  by_cases h1 : jsStrLt a.data b.data = true
  · rw [if_pos h1, if_neg (by rw [jsStrLt_asymm _ _ h1]; simp)]
  · rw [if_neg h1]
    by_cases h2 : jsStrLt b.data a.data = true
    · rw [if_pos h2]
    · have hd : a.data = b.data :=
        jsStrLt_total a.data b.data (Bool.not_eq_true _ |>.mp h1) (Bool.not_eq_true _ |>.mp h2)
      have hab : a = b := congrArg String.mk hd
      rw [hab]
      exact (ite_self _).symm

theorem digitChar_inj_lt : ∀ a < 10, ∀ b < 10, Nat.digitChar a = Nat.digitChar b → a = b := by
  decide

theorem toDigitsCore_eq_digits (b : ℕ) (hb : 2 ≤ b) :
    ∀ (f : ℕ) (n : ℕ) (l : List Char), n ≠ 0 → n < f →
      Nat.toDigitsCore b f n l = ((Nat.digits b n).map Nat.digitChar).reverse ++ l := by
  intro f
  induction f with
  | zero => intro n l hn hf; omega
  | succ f ih =>
    intro n l hn hf
    have hb1 : 1 < b := hb
    have hdig := Nat.digits_def' hb1 (Nat.pos_of_ne_zero hn)
    by_cases hq : n / b = 0
    · rw [Nat.toDigitsCore]
      simp only [hq, if_true]
      rw [hdig, hq]
      simp
    · rw [Nat.toDigitsCore]
      simp only [hq, if_false]
      have hlt : n / b < n := Nat.div_lt_self (Nat.pos_of_ne_zero hn) hb1
      rw [ih (n / b) (Nat.digitChar (n % b) :: l) hq (by omega), hdig]
      simp [List.append_assoc]

theorem toDigits_eq_digits (n : ℕ) (hn : n ≠ 0) :
    Nat.toDigits 10 n = ((Nat.digits 10 n).map Nat.digitChar).reverse := by
  unfold Nat.toDigits
  rw [toDigitsCore_eq_digits 10 (by norm_num) (n + 1) n [] hn (by omega)]
  simp

theorem map_digitChar_inj : ∀ l1 l2 : List ℕ, (∀ d ∈ l1, d < 10) → (∀ d ∈ l2, d < 10) →
    l1.map Nat.digitChar = l2.map Nat.digitChar → l1 = l2 := by
  intro l1
  induction l1 with
  | nil =>
    intro l2 _ _ h
    cases l2 with
    | nil => rfl
    | cons d ds => simp at h
  | cons c cs ih =>
    intro l2 h1 h2 h
    cases l2 with
    | nil => simp at h
    | cons d ds =>
      simp only [List.map_cons, List.cons.injEq] at h
      have hc : c = d := digitChar_inj_lt c (h1 c (List.mem_cons_self c cs)) d
        (h2 d (List.mem_cons_self d ds)) h.1
      rw [hc, ih ds (fun x hx => h1 x (List.mem_cons_of_mem c hx))
        (fun x hx => h2 x (List.mem_cons_of_mem d hx)) h.2]

theorem natRepr_inj (m n : ℕ) (h : Nat.repr m = Nat.repr n) : m = n := by
  have hdata : (Nat.toDigits 10 m) = (Nat.toDigits 10 n) := by
    have := congrArg String.data h
    simpa [Nat.repr, List.asString] using this
  by_cases hm : m = 0
  · by_cases hn : n = 0
    · rw [hm, hn]
    · exfalso
      rw [hm, toDigits_eq_digits n hn] at hdata
      have h0 : Nat.toDigits 10 0 = ['0'] := rfl
      rw [h0] at hdata
      have hrev := congrArg List.reverse hdata
      simp only [List.reverse_reverse, List.reverse_cons, List.reverse_nil,
        List.nil_append] at hrev
      have hd : Nat.digits 10 n = [0] := by
        apply map_digitChar_inj
        · intro d hd
          exact Nat.digits_lt_base (by norm_num) hd
        · intro d hd
          rcases List.mem_singleton.mp hd with rfl
          norm_num
        · rw [← hrev]
          rfl
      have := Nat.ofDigits_digits 10 n
      rw [hd] at this
      simp [Nat.ofDigits] at this
      exact hn this.symm
  · by_cases hn : n = 0
    · exfalso
      rw [hn, toDigits_eq_digits m hm] at hdata
      have h0 : Nat.toDigits 10 0 = ['0'] := rfl
      rw [h0] at hdata
      have hrev := congrArg List.reverse hdata
      simp only [List.reverse_reverse, List.reverse_cons, List.reverse_nil,
        List.nil_append] at hrev
      have hd : Nat.digits 10 m = [0] := by
        apply map_digitChar_inj
        · intro d hd
          exact Nat.digits_lt_base (by norm_num) hd
        · intro d hd
          rcases List.mem_singleton.mp hd with rfl
          norm_num
        · rw [hrev]
          rfl
      have := Nat.ofDigits_digits 10 m
      rw [hd] at this
      simp [Nat.ofDigits] at this
      exact hm this.symm
    · rw [toDigits_eq_digits m hm, toDigits_eq_digits n hn] at hdata
      have hmap := List.reverse_injective hdata
      have hdig := map_digitChar_inj _ _
        (fun d hd => Nat.digits_lt_base (by norm_num) hd)
        (fun d hd => Nat.digits_lt_base (by norm_num) hd) hmap
      calc m = Nat.ofDigits 10 (Nat.digits 10 m) := (Nat.ofDigits_digits 10 m).symm
      _ = Nat.ofDigits 10 (Nat.digits 10 n) := by rw [hdig]
      _ = n := Nat.ofDigits_digits 10 n

theorem toString_nat_inj (m n : ℕ) (h : toString m = toString n) : m = n :=
  natRepr_inj m n h

theorem nodup_subset_length {β : Type} [DecidableEq β] (l l' : List β)
    (hnd : l.Nodup) (hsub : ∀ x ∈ l, x ∈ l') : l.length ≤ l'.length := by
  calc l.length = l.toFinset.card := (List.toFinset_card_of_nodup hnd).symm
  _ ≤ l'.toFinset.card := Finset.card_le_card
      (fun x hx => List.mem_toFinset.mpr (hsub x (List.mem_toFinset.mp hx)))
  _ ≤ l'.length := l'.toFinset_card_le

/-- **C4** (amended).  For every lattice produced by `generateGrid` — any
cell counts, either orientation, over any linear ordered field with an
exact square root of 3 — provided the point spacing is at least `0.02`
(twice the dedup tolerance `0.01`), every vertex identifier appears as an
endpoint of at most 3 edges in the full generated edge list.  Proof: all
corners live on the integer lattice `embL`; at spacing `≥ 1/50` the
tolerance test `vclose` is exact equality there, ids are injective, and
each vertex class admits only the 3 displacements of `allowedD`, while
`addHexEdges` never stores a duplicate key. -/
theorem generateGrid_degree_le_three {α : Type} [LinearOrderedField α]
    (C CO R RO : ℕ) (s q3 : α) (pt : Bool)
    (h3 : q3 * q3 = 3) (h0 : 0 ≤ q3) (hs : 1 / 50 ≤ s) (v : String) :
    ((generateGrid C CO R RO s q3 pt).edges.filter
      (fun e => e.v1 = v ∨ e.v2 = v)).length ≤ 3 := by
  have hctr := centers_valid pt C CO R RO s q3
  have hlat := collectVertices_lattice pt s q3 _ hctr
  have hcor := collectVertices_corners pt s q3 h3 h0 hs _ hctr
  have hedges := generateGrid_edges_eq pt s q3 C CO R RO hcor
  obtain ⟨hEOK, hnd⟩ := edges_fold_sound pt s q3
    (collectVertices (generateHexCenters C CO R RO s q3 pt) s q3 pt)
    (generateHexCenters C CO R RO s q3 pt) hctr hcor []
    (fun e he => absurd he (List.not_mem_nil e)) (by simp)
  rw [← hedges] at hEOK hnd
  by_cases hD : (generateGrid C CO R RO s q3 pt).edges.filter
      (fun e => e.v1 = v ∨ e.v2 = v) = []
  · rw [hD]
    norm_num
  · obtain ⟨e0, he0⟩ := List.exists_mem_of_ne_nil _ hD
    have he0' := List.mem_filter.mp he0
    have hpred0 : e0.v1 = v ∨ e0.v2 = v := of_decide_eq_true he0'.2
    obtain ⟨z0, w0, hadj0, hz0, hw0, hv10, hv20, _⟩ := hEOK e0 he0'.1
    obtain ⟨p, hpL, hpcls, hpv⟩ :
        ∃ p : ℤ × ℤ,
          embL pt s q3 p ∈ collectVertices (generateHexCenters C CO R RO s q3 pt) s q3 pt ∧
          (clZ pt p = 0 ∨ clZ pt p = 1) ∧
          v = toString (idOf (collectVertices (generateHexCenters C CO R RO s q3 pt) s q3 pt)
            (embL pt s q3 p)) := by
      rcases hpred0 with h | h
      · exact ⟨z0, hz0, hadj0.1, h ▸ hv10⟩
      · exact ⟨w0, hw0, hadj0.2.1, h ▸ hv20⟩
    set L := collectVertices (generateHexCenters C CO R RO s q3 pt) s q3 pt with hL
    set K := (allowedD pt (clZ pt p)).map
      (fun δ => getEdgeKey v (toString (idOf L (embL pt s q3 (p.1 + δ.1, p.2 + δ.2))))) with hK
    have hmapsub : ∀ κ ∈ ((generateGrid C CO R RO s q3 pt).edges.filter
        (fun e => e.v1 = v ∨ e.v2 = v)).map HEdge.key, κ ∈ K := by
      intro κ hκ
      obtain ⟨e, heD, rfl⟩ := List.mem_map.mp hκ
      have he' := List.mem_filter.mp heD
      have hpred : e.v1 = v ∨ e.v2 = v := of_decide_eq_true he'.2
      obtain ⟨z, w, hadj, hz, hw, hv1, hv2, hkey⟩ := hEOK e he'.1
      rcases hpred with h | h
      · have hzp : z = p := by
          apply idOf_inj pt s q3 h3 h0 hs L hlat z p hz hpL
          apply toString_nat_inj
          rw [← hv1, h, hpv]
        subst hzp
        have hδ := adj_allowed pt z w hadj
        have hw2 : (z.1 + (w.1 - z.1), z.2 + (w.2 - z.2)) = w := by
          apply Prod.ext <;> simp
        refine List.mem_map.mpr ⟨(w.1 - z.1, w.2 - z.2), hδ, ?_⟩
        simp only [hw2]
        rw [hkey, hv2, h]
      · have hwp : w = p := by
          apply idOf_inj pt s q3 h3 h0 hs L hlat w p hw hpL
          apply toString_nat_inj
          rw [← hv2, h, hpv]
        subst hwp
        have hδ := adj_allowed pt w z (adjZ_symm pt z w hadj)
        have hz2 : (w.1 + (z.1 - w.1), w.2 + (z.2 - w.2)) = z := by
          apply Prod.ext <;> simp
        refine List.mem_map.mpr ⟨(z.1 - w.1, z.2 - w.2), hδ, ?_⟩
        simp only [hz2]
        rw [hkey, hv1, h, getEdgeKey_comm]
    have hndD : (((generateGrid C CO R RO s q3 pt).edges.filter
        (fun e => e.v1 = v ∨ e.v2 = v)).map HEdge.key).Nodup :=
      List.Nodup.sublist (List.Sublist.map HEdge.key (List.filter_sublist _)) hnd
    have hle := nodup_subset_length _ K hndD hmapsub
    rw [List.length_map] at hle
    rw [hK, List.length_map, allowedD_length] at hle
    exact hle

set_option maxRecDepth 2000000 in
/-- **C4** fails as stated: at the positive spacing `0.0114` (2 columns,
2 rows, pointy-top) distinct corners fall within the `0.01` dedup
tolerance, corners merge, and vertex `"0"` becomes an endpoint of 6
edges. -/
theorem generateGrid_degree_counterexample :
    0 < tinySpacing ∧
    ¬ ((gridTiny.edges.filter (fun e => e.v1 = "0" ∨ e.v2 = "0")).length ≤ 3) := by
  decide

set_option maxRecDepth 400000 in
/-- Instantiation of the amended degree bound: the 2×2 pointy-top lattice at
spacing 18 in `ℚ[√3]`, vertex `"0"`. -/
theorem generateGrid_degree_le_three_witness :
    ((1 : Q3) / 50 ≤ 18 ∧ Q3.sqrt3 * Q3.sqrt3 = 3 ∧ 0 ≤ Q3.sqrt3) ∧
    ((generateGrid 2 2 2 2 (18 : Q3) Q3.sqrt3 true).edges.filter
      (fun e => e.v1 = "0" ∨ e.v2 = "0")).length ≤ 3 :=
  ⟨⟨by decide, by decide, by decide⟩,
    generateGrid_degree_le_three 2 2 2 2 18 Q3.sqrt3 true (by decide) (by decide)
      (by decide) "0"⟩

theorem hexCornerOffsets_pointy_eq :
    hexCornerOffsets (Real.sqrt 3) true =
      (List.range 6).map (fun (i : ℕ) =>
        (Real.cos (Real.pi / 180 * (-90 + 60 * (i : ℝ))),
         Real.sin (Real.pi / 180 * (-90 + 60 * (i : ℝ))))) := by
  have e0 : Real.pi / 180 * (-90 + 60 * ((0 : ℕ) : ℝ)) = -(Real.pi / 2) := by
    push_cast; ring
  have e1 : Real.pi / 180 * (-90 + 60 * ((1 : ℕ) : ℝ)) = -(Real.pi / 6) := by
    push_cast; ring
  have e2 : Real.pi / 180 * (-90 + 60 * ((2 : ℕ) : ℝ)) = Real.pi / 6 := by
    push_cast; ring
  have e3 : Real.pi / 180 * (-90 + 60 * ((3 : ℕ) : ℝ)) = Real.pi / 2 := by
    push_cast; ring
  have e4 : Real.pi / 180 * (-90 + 60 * ((4 : ℕ) : ℝ)) = Real.pi - Real.pi / 6 := by
    push_cast; ring
  have e5 : Real.pi / 180 * (-90 + 60 * ((5 : ℕ) : ℝ)) = Real.pi + Real.pi / 6 := by
    push_cast; ring
  rw [show List.range 6 = [0, 1, 2, 3, 4, 5] from rfl]
  simp only [List.map_cons, List.map_nil, e0, e1, e2, e3, e4, e5,
    Real.cos_neg, Real.sin_neg,
    Real.cos_pi_div_two, Real.sin_pi_div_two, Real.cos_pi_div_six, Real.sin_pi_div_six,
    Real.cos_pi_sub, Real.sin_pi_sub, Real.cos_add, Real.sin_add,
    Real.cos_pi, Real.sin_pi]
  norm_num [hexCornerOffsets, Prod.ext_iff]

theorem hexCornerOffsets_flat_eq :
    hexCornerOffsets (Real.sqrt 3) false =
      (List.range 6).map (fun (i : ℕ) =>
        (Real.cos (Real.pi / 180 * (0 + 60 * (i : ℝ))),
         Real.sin (Real.pi / 180 * (0 + 60 * (i : ℝ))))) := by
  have e0 : Real.pi / 180 * (0 + 60 * ((0 : ℕ) : ℝ)) = 0 := by
    push_cast; ring
  have e1 : Real.pi / 180 * (0 + 60 * ((1 : ℕ) : ℝ)) = Real.pi / 3 := by
    push_cast; ring
  have e2 : Real.pi / 180 * (0 + 60 * ((2 : ℕ) : ℝ)) = Real.pi - Real.pi / 3 := by
    push_cast; ring
  have e3 : Real.pi / 180 * (0 + 60 * ((3 : ℕ) : ℝ)) = Real.pi := by
    push_cast; ring
  have e4 : Real.pi / 180 * (0 + 60 * ((4 : ℕ) : ℝ)) = Real.pi + Real.pi / 3 := by
    push_cast; ring
  have e5 : Real.pi / 180 * (0 + 60 * ((5 : ℕ) : ℝ)) =
      Real.pi + (Real.pi - Real.pi / 3) := by
    push_cast; ring
  rw [show List.range 6 = [0, 1, 2, 3, 4, 5] from rfl]
  simp only [List.map_cons, List.map_nil, e0, e1, e2, e3, e4, e5,
    Real.cos_zero, Real.sin_zero,
    Real.cos_pi_div_three, Real.sin_pi_div_three,
    Real.cos_pi_sub, Real.sin_pi_sub, Real.cos_add, Real.sin_add,
    Real.cos_pi, Real.sin_pi]
  norm_num [hexCornerOffsets, Prod.ext_iff]

section FNVWithTheorems

variable {α : Type} [LinearOrderedField α]

theorem findNearestVertex_eq_with (vertices : List (String × (α × α))) (tx ty : α) :
    findNearestVertex vertices tx ty =
      findNearestVertexWith (fun x => x) vertices tx ty ((1 / 10) ^ 2) := by
  unfold findNearestVertex findNearestVertexWith
  rfl

theorem fnvWith_fold_aux (dm : α → α)
    (hmono : ∀ x y : α, 0 ≤ x → (dm x < dm y ↔ x < y)) (tx ty : α) :
    ∀ (l : List (String × (α × α))) (acc : Option (String × α)),
      (∀ p : String × α, acc = some p → 0 ≤ p.2) →
      (l.foldl (fun (acc : Option (String × α)) kv =>
          let d := dm ((kv.2.1 - tx) ^ 2 + (kv.2.2 - ty) ^ 2)
          match acc with
          | Option.none => some (kv.1, d)
          | some (k, d0) => if d < d0 then some (kv.1, d) else some (k, d0))
        (acc.map (fun p => (p.1, dm p.2))) =
        (l.foldl (fun (acc : Option (String × α)) kv =>
          let d := (fun x => x) ((kv.2.1 - tx) ^ 2 + (kv.2.2 - ty) ^ 2)
          match acc with
          | Option.none => some (kv.1, d)
          | some (k, d0) => if d < d0 then some (kv.1, d) else some (k, d0))
        acc).map (fun p => (p.1, dm p.2))) ∧
      (∀ p : String × α,
        l.foldl (fun (acc : Option (String × α)) kv =>
          let d := (fun x => x) ((kv.2.1 - tx) ^ 2 + (kv.2.2 - ty) ^ 2)
          match acc with
          | Option.none => some (kv.1, d)
          | some (k, d0) => if d < d0 then some (kv.1, d) else some (k, d0)) acc
          = some p → 0 ≤ p.2) := by
  intro l
  induction l with
  | nil => intro acc h; exact ⟨rfl, h⟩
  | cons kv rest ih =>
    intro acc h
    have hd : (0 : α) ≤ (kv.2.1 - tx) ^ 2 + (kv.2.2 - ty) ^ 2 := by positivity
    rcases acc with _ | ⟨k, d0⟩
    · rw [List.foldl_cons, List.foldl_cons]
      exact ih (some (kv.1, (kv.2.1 - tx) ^ 2 + (kv.2.2 - ty) ^ 2))
        (fun p hp => by rw [← Option.some_inj.mp hp]; exact hd)
    · have hd0 : 0 ≤ d0 := h (k, d0) rfl
      rw [List.foldl_cons, List.foldl_cons]
      have hnn1 : ∀ p : String × α,
          (some (kv.1, (kv.2.1 - tx) ^ 2 + (kv.2.2 - ty) ^ 2) : Option (String × α)) =
            some p → 0 ≤ p.2 :=
        fun p hp => by rw [← Option.some_inj.mp hp]; exact hd
      have hnn2 : ∀ p : String × α, (some (k, d0) : Option (String × α)) = some p →
          0 ≤ p.2 :=
        fun p hp => by rw [← Option.some_inj.mp hp]; exact hd0
      constructor
      · show List.foldl _
            (if dm ((kv.2.1 - tx) ^ 2 + (kv.2.2 - ty) ^ 2) < dm d0
              then some (kv.1, dm ((kv.2.1 - tx) ^ 2 + (kv.2.2 - ty) ^ 2))
              else some (k, dm d0)) rest =
          Option.map _
            (List.foldl _
              (if (kv.2.1 - tx) ^ 2 + (kv.2.2 - ty) ^ 2 < d0
                then some (kv.1, (kv.2.1 - tx) ^ 2 + (kv.2.2 - ty) ^ 2)
                else some (k, d0)) rest)
        by_cases hlt : (kv.2.1 - tx) ^ 2 + (kv.2.2 - ty) ^ 2 < d0
        · rw [if_pos hlt, if_pos ((hmono _ _ hd).mpr hlt)]
          exact (ih (some (kv.1, (kv.2.1 - tx) ^ 2 + (kv.2.2 - ty) ^ 2)) hnn1).1
        · rw [if_neg hlt, if_neg (fun hc => hlt ((hmono _ _ hd).mp hc))]
          exact (ih (some (k, d0)) hnn2).1
      · show ∀ p : String × α,
          List.foldl _
            (if (kv.2.1 - tx) ^ 2 + (kv.2.2 - ty) ^ 2 < d0
              then some (kv.1, (kv.2.1 - tx) ^ 2 + (kv.2.2 - ty) ^ 2)
              else some (k, d0)) rest = some p → 0 ≤ p.2
        by_cases hlt : (kv.2.1 - tx) ^ 2 + (kv.2.2 - ty) ^ 2 < d0
        · rw [if_pos hlt]
          exact (ih (some (kv.1, (kv.2.1 - tx) ^ 2 + (kv.2.2 - ty) ^ 2)) hnn1).2
        · rw [if_neg hlt]
          exact (ih (some (k, d0)) hnn2).2

theorem fnvWith_eq (dm : α → α)
    (hmono : ∀ x y : α, 0 ≤ x → (dm x < dm y ↔ x < y))
    (tolSq tolR : α) (htol : ∀ d : α, 0 ≤ d → (dm d < tolR ↔ d < tolSq))
    (vertices : List (String × (α × α))) (tx ty : α) :
    findNearestVertexWith (fun x => x) vertices tx ty tolSq =
      findNearestVertexWith dm vertices tx ty tolR := by
  obtain ⟨heq, hnn⟩ := fnvWith_fold_aux dm hmono tx ty vertices Option.none
    (fun p hp => by simp at hp)
  unfold findNearestVertexWith
  rw [show (Option.map (fun p : String × α => (p.1, dm p.2)) Option.none) = Option.none
    from rfl] at heq
  rw [heq]
  cases hb : vertices.foldl (fun (acc : Option (String × α)) kv =>
      let d := (fun x => x) ((kv.2.1 - tx) ^ 2 + (kv.2.2 - ty) ^ 2)
      match acc with
      | Option.none => some (kv.1, d)
      | some (k, d0) => if d < d0 then some (kv.1, d) else some (k, d0)) Option.none with
  | none => rfl
  | some p =>
    obtain ⟨k, d⟩ := p
    have hd : 0 ≤ d := hnn (k, d) hb
    show (if d < tolSq then some k else Option.none) =
      (if dm d < tolR then some k else Option.none)
    by_cases hlt : d < tolSq
    · rw [if_pos hlt, if_pos ((htol d hd).mpr hlt)]
    · rw [if_neg hlt, if_neg (fun hc => hlt ((htol d hd).mp hc))]

end FNVWithTheorems

/-- Fidelity of the squared-distance embedding of `findNearestVertex`
(hexMath.js line 358): over `ℝ` it agrees with the source's
`Math.hypot`-based comparison with tolerance `0.1`. -/
theorem findNearestVertex_hypot (vertices : List (String × (ℝ × ℝ))) (tx ty : ℝ) :
    findNearestVertex vertices tx ty = findNearestVertexR vertices tx ty := by
  rw [findNearestVertex_eq_with]
  unfold findNearestVertexR
  apply fnvWith_eq
  · intro x y hx
    constructor
    · intro hc
      by_contra hnc
      exact absurd hc (not_lt.mpr (Real.sqrt_le_sqrt (not_lt.mp hnc)))
    · exact Real.sqrt_lt_sqrt hx
  · intro d _
    exact Real.sqrt_lt' (by norm_num)
